import Mathlib

/-!
Verification of the `indie-map` aggregation-and-scoring pipeline
(`src/bigquery/make_web.py`) against its specification.

Modelling conventions:
* Python `dict`s (whose iteration order is insertion order) are modelled as
  association lists `List (key × value)`; a `defaultdict` access that creates a
  missing key appends it at the end, exactly as CPython does.
* JSON values are modelled by the inductive type `JVal`; JSON numbers are
  modelled as integers (no claim depends on non-integer numbers).
* `decimal.Decimal` arithmetic (precision 3) is modelled by exact arithmetic:
  raw scores are natural numbers and `Decimal.ln` is `Real.log`.
-/

namespace IndieMap

open List (Sublist Perm)
open scoped List

abbrev Domain := String

/-- A JSON value, as handled by the pipeline.  Numbers are modelled as
integers. -/
inductive JVal where
  | null
  | bool (b : Bool)
  | num (n : Int)
  | str (s : String)
  | arr (elts : List JVal)
  | obj (fields : List (String × JVal))

/-- One record of the links input file: `from_domain`, `to_domain`, `num`,
optional `mf2_class` (source: `load_links`, reading `links.json`). -/
structure LinkEvent where
  from_domain : Domain
  to_domain : Domain
  num : Nat
  mf2_class : Option String
deriving DecidableEq, Repr

/-- Lookup in an association list with a default, mirroring `dict.get(k, d)` /
`defaultdict` reads. -/
def findD {α β : Type _} [DecidableEq α] (k : α) (d : β) : List (α × β) → β
  | [] => d
  | (k', v) :: rest => if k' = k then v else findD k d rest

/-- The update `updateAList k d f l` models `l[k] = f(l[k])` on a `defaultdict` with
default `d`: the entry for `k` is updated in place, or appended (in insertion
order) with value `f d` when absent. -/
def updateAList {α β : Type _} [DecidableEq α] (k : α) (d : β) (f : β → β) :
    List (α × β) → List (α × β)
  | [] => [(k, f d)]
  | (k', v) :: rest =>
      if k' = k then (k', f v) :: rest else (k', v) :: updateAList k d f rest

theorem findD_updateAList {α β : Type _} [DecidableEq α] (k k' : α) (d : β)
    (f : β → β) (l : List (α × β)) :
    findD k d (updateAList k' d f l) =
      if k' = k then f (findD k d l) else findD k d l := by
  induction l with
  | nil =>
      by_cases h : k' = k <;> simp [updateAList, findD, h]
  | cons p rest ih =>
      obtain ⟨a, v⟩ := p
      by_cases hak' : a = k'
      · subst hak'
        by_cases hk : a = k
        · subst hk
          simp [updateAList, findD]
        · simp [updateAList, findD, hk]
      · by_cases hk : a = k
        · subst hk
          have hk'a : ¬ k' = a := fun h => hak' h.symm
          simp [updateAList, hak', findD, hk'a]
        · simp [updateAList, hak', findD, hk, ih]

/-! ## Link aggregation (`load_links`, make_web.py lines 115-138) -/

/-- The per-edge class/direction counts: `links[from][to]` in `load_links`.
`out` and `in_` model the `'out'` / `'in'` sub-dicts (class name → count);
a direction that was never touched is the empty list, and an absent class
counts as 0. -/
structure EdgeBucket where
  out : List (String × Nat)
  in_ : List (String × Nat)
deriving DecidableEq, Repr

def emptyBucket : EdgeBucket := ⟨[], []⟩

/-- State built by `load_links`: the nested `links` defaultdict, the set of
from-domains (modelled as a duplicate-free list), and the two totals
defaultdicts. -/
structure AggState where
  links : List (Domain × List (Domain × EdgeBucket))
  from_domains : List Domain
  out_counts : List (Domain × Nat)
  in_counts : List (Domain × Nat)
deriving Repr

/-- The class `mf2 = link.get('mf2_class', 'other')`, followed by stripping a leading
`"u-"` (`mf2.startswith('u-')` / `mf2[2:]`, modelled on the character
sequence). -/
def eventMf2 (e : LinkEvent) : String :=
  let mf2 := e.mf2_class.getD "other"
  match mf2.data with
  | 'u' :: '-' :: rest => String.mk rest
  | _ => mf2

/-- Source: `links[from][to]['out'][mf2] += num` (one defaultdict chain). -/
def bumpOut (mf2 : String) (num : Nat) (b : EdgeBucket) : EdgeBucket :=
  { b with out := updateAList mf2 0 (· + num) b.out }

/-- Source: `links[to][from]['in'][mf2] += num`. -/
def bumpIn (mf2 : String) (num : Nat) (b : EdgeBucket) : EdgeBucket :=
  { b with in_ := updateAList mf2 0 (· + num) b.in_ }

/-- Source: `from_domains.add(from_domain)`: set insertion (kept duplicate-free). -/
def insertDomain (d : Domain) (l : List Domain) : List Domain :=
  if d ∈ l then l else l ++ [d]

/-- The body of the `for` loop in `load_links`, processing one link record. -/
def addEvent (st : AggState) (e : LinkEvent) : AggState :=
  let f := e.from_domain
  let t := e.to_domain
  let n := e.num
  let m := eventMf2 e
  { links :=
      updateAList t [] (updateAList f emptyBucket (bumpIn m n))
        (updateAList f [] (updateAList t emptyBucket (bumpOut m n)) st.links),
    from_domains := insertDomain f st.from_domains,
    out_counts := updateAList f 0 (· + n) st.out_counts,
    in_counts := updateAList t 0 (· + n) st.in_counts }

def emptyAgg : AggState := ⟨[], [], [], []⟩

/-- The function `load_links`: fold the loop body over the input sequence. -/
def load_links (events : List LinkEvent) : AggState :=
  events.foldl addEvent emptyAgg

/-- The count `graph[A][B].out[c]` read out of an aggregation state (0 when absent at
any level). -/
def outCount (st : AggState) (A B : Domain) (c : String) : Nat :=
  findD c 0 (findD B emptyBucket (findD A [] st.links)).out

/-- The count `graph[A][B].in[c]` read out of an aggregation state. -/
def inCount (st : AggState) (A B : Domain) (c : String) : Nat :=
  findD c 0 (findD B emptyBucket (findD A [] st.links)).in_

theorem outCount_addEvent (st : AggState) (e : LinkEvent) (A B : Domain)
    (c : String) :
    outCount (addEvent st e) A B c =
      outCount st A B c +
        (if A = e.from_domain ∧ B = e.to_domain ∧ c = eventMf2 e then e.num
         else 0) := by
  unfold outCount addEvent
  simp only [findD_updateAList]
  by_cases hA : A = e.from_domain <;> by_cases hA' : A = e.to_domain <;>
    by_cases hB : B = e.from_domain <;> by_cases hB' : B = e.to_domain <;>
    by_cases hc : c = eventMf2 e <;>
    simp_all [bumpIn, bumpOut, findD_updateAList, eq_comm]

theorem inCount_addEvent (st : AggState) (e : LinkEvent) (A B : Domain)
    (c : String) :
    inCount (addEvent st e) A B c =
      inCount st A B c +
        (if A = e.to_domain ∧ B = e.from_domain ∧ c = eventMf2 e then e.num
         else 0) := by
  unfold inCount addEvent
  simp only [findD_updateAList]
  by_cases hA : A = e.from_domain <;> by_cases hA' : A = e.to_domain <;>
    by_cases hB : B = e.from_domain <;> by_cases hB' : B = e.to_domain <;>
    by_cases hc : c = eventMf2 e <;>
    simp_all [bumpIn, bumpOut, findD_updateAList, eq_comm]

/-- Sum of all class counts in the `out` direction of one edge bucket. -/
def bucketOutTotal (b : EdgeBucket) : Nat := (b.out.map (fun p => p.2)).sum

/-- Sum of all class counts in the `in` direction of one edge bucket. -/
def bucketInTotal (b : EdgeBucket) : Nat := (b.in_.map (fun p => p.2)).sum

/-- Sum, over all edges `D → X` of a domain's row, of all out-direction
class counts. -/
def rowOutTotal (row : List (Domain × EdgeBucket)) : Nat :=
  (row.map (fun p => bucketOutTotal p.2)).sum

/-- Sum, over all edges `D → X` of a domain's row, of all in-direction
class counts. -/
def rowInTotal (row : List (Domain × EdgeBucket)) : Nat :=
  (row.map (fun p => bucketInTotal p.2)).sum

theorem sum_map_updateAList {α β : Type _} [DecidableEq α] (k : α) (d : β)
    (f : β → β) (g : β → Nat) (hd : g d = 0) (l : List (α × β)) :
    ((updateAList k d f l).map (fun p => g p.2)).sum + g (findD k d l) =
      (l.map (fun p => g p.2)).sum + g (f (findD k d l)) := by
  induction l with
  | nil => simp [updateAList, findD, hd]
  | cons p rest ih =>
      obtain ⟨a, v⟩ := p
      by_cases h : a = k
      · subst h
        simp [updateAList, findD]
        omega
      · simp only [updateAList, if_neg h, findD, List.map_cons, List.sum_cons,
          if_neg h]
        omega

theorem bucketOutTotal_bumpOut (m : String) (n : Nat) (b : EdgeBucket) :
    bucketOutTotal (bumpOut m n b) = bucketOutTotal b + n := by
  have h := sum_map_updateAList m 0 (· + n) (fun x => x) rfl b.out
  simp only [bucketOutTotal, bumpOut]
  omega

theorem bucketInTotal_bumpIn (m : String) (n : Nat) (b : EdgeBucket) :
    bucketInTotal (bumpIn m n b) = bucketInTotal b + n := by
  have h := sum_map_updateAList m 0 (· + n) (fun x => x) rfl b.in_
  simp only [bucketInTotal, bumpIn]
  omega

theorem rowOutTotal_update_bumpOut (t : Domain) (m : String) (n : Nat)
    (row : List (Domain × EdgeBucket)) :
    rowOutTotal (updateAList t emptyBucket (bumpOut m n) row) =
      rowOutTotal row + n := by
  have h := sum_map_updateAList t emptyBucket (bumpOut m n) bucketOutTotal
    rfl row
  rw [bucketOutTotal_bumpOut] at h
  simp only [rowOutTotal]
  omega

theorem rowOutTotal_update_bumpIn (f : Domain) (m : String) (n : Nat)
    (row : List (Domain × EdgeBucket)) :
    rowOutTotal (updateAList f emptyBucket (bumpIn m n) row) =
      rowOutTotal row := by
  have h := sum_map_updateAList f emptyBucket (bumpIn m n) bucketOutTotal
    rfl row
  have hb : bucketOutTotal (bumpIn m n (findD f emptyBucket row)) =
      bucketOutTotal (findD f emptyBucket row) := rfl
  rw [hb] at h
  simp only [rowOutTotal]
  omega

theorem rowInTotal_update_bumpIn (f : Domain) (m : String) (n : Nat)
    (row : List (Domain × EdgeBucket)) :
    rowInTotal (updateAList f emptyBucket (bumpIn m n) row) =
      rowInTotal row + n := by
  have h := sum_map_updateAList f emptyBucket (bumpIn m n) bucketInTotal
    rfl row
  rw [bucketInTotal_bumpIn] at h
  simp only [rowInTotal]
  omega

theorem rowInTotal_update_bumpOut (t : Domain) (m : String) (n : Nat)
    (row : List (Domain × EdgeBucket)) :
    rowInTotal (updateAList t emptyBucket (bumpOut m n) row) =
      rowInTotal row := by
  have h := sum_map_updateAList t emptyBucket (bumpOut m n) bucketInTotal
    rfl row
  have hb : bucketInTotal (bumpOut m n (findD t emptyBucket row)) =
      bucketInTotal (findD t emptyBucket row) := rfl
  rw [hb] at h
  simp only [rowInTotal]
  omega

theorem rowOutTotal_addEvent (st : AggState) (e : LinkEvent) (D : Domain) :
    rowOutTotal (findD D [] (addEvent st e).links) =
      rowOutTotal (findD D [] st.links) +
        (if e.from_domain = D then e.num else 0) := by
  unfold addEvent
  simp only [findD_updateAList]
  by_cases ht : e.to_domain = D <;> by_cases hf : e.from_domain = D <;>
    simp [ht, hf, rowOutTotal_update_bumpOut, rowOutTotal_update_bumpIn]

theorem rowInTotal_addEvent (st : AggState) (e : LinkEvent) (D : Domain) :
    rowInTotal (findD D [] (addEvent st e).links) =
      rowInTotal (findD D [] st.links) +
        (if e.to_domain = D then e.num else 0) := by
  unfold addEvent
  simp only [findD_updateAList]
  by_cases ht : e.to_domain = D <;> by_cases hf : e.from_domain = D <;>
    simp [ht, hf, rowInTotal_update_bumpIn, rowInTotal_update_bumpOut]

/-- The aggregation invariant of C4 and C5, stated for an arbitrary
intermediate state. -/
def AggInv (st : AggState) : Prop :=
  (∀ A B c, outCount st A B c = inCount st B A c) ∧
  (∀ D, findD D 0 st.out_counts = rowOutTotal (findD D [] st.links)) ∧
  (∀ D, findD D 0 st.in_counts = rowInTotal (findD D [] st.links))

theorem aggInv_addEvent (st : AggState) (e : LinkEvent) (h : AggInv st) :
    AggInv (addEvent st e) := by
  obtain ⟨hsym, hout, hin⟩ := h
  refine ⟨?_, ?_, ?_⟩
  · intro A B c
    rw [outCount_addEvent, inCount_addEvent, hsym A B c]
    have hiff : (A = e.from_domain ∧ B = e.to_domain ∧ c = eventMf2 e) ↔
        (B = e.to_domain ∧ A = e.from_domain ∧ c = eventMf2 e) := by tauto
    rw [if_congr hiff rfl rfl]
  · intro D
    have hc : findD D 0 (addEvent st e).out_counts =
        findD D 0 st.out_counts + (if e.from_domain = D then e.num else 0) := by
      unfold addEvent
      simp only [findD_updateAList]
      by_cases hf : e.from_domain = D <;> simp [hf]
    rw [hc, rowOutTotal_addEvent, hout D]
  · intro D
    have hc : findD D 0 (addEvent st e).in_counts =
        findD D 0 st.in_counts + (if e.to_domain = D then e.num else 0) := by
      unfold addEvent
      simp only [findD_updateAList]
      by_cases ht : e.to_domain = D <;> simp [ht]
    rw [hc, rowInTotal_addEvent, hin D]

theorem aggInv_foldl (events : List LinkEvent) :
    ∀ st : AggState, AggInv st → AggInv (events.foldl addEvent st) := by
  induction events with
  | nil => intro st h; exact h
  | cons e rest ih =>
      intro st h
      exact ih (addEvent st e) (aggInv_addEvent st e h)

theorem aggInv_empty : AggInv emptyAgg := by
  refine ⟨?_, ?_, ?_⟩ <;> intro _ <;>
    simp [outCount, inCount, emptyAgg, findD, rowOutTotal, rowInTotal,
      emptyBucket]

theorem aggInv_load_links (events : List LinkEvent) :
    AggInv (load_links events) :=
  aggInv_foldl events emptyAgg aggInv_empty

/-- C4: after aggregating any sequence of link events, for every ordered pair
of domains `(A, B)` and every micro-format class `c`, the accumulated count
`graph[A][B].out[c]` equals `graph[B][A].in[c]`. -/
theorem C4_symmetry (events : List LinkEvent) (A B : Domain) (c : String) :
    outCount (load_links events) A B c = inCount (load_links events) B A c :=
  (aggInv_load_links events).1 A B c

/-- C5: after aggregating any sequence of link events, for every domain `D`
the accumulated total `out_counts[D]` (the record's `links_out`) equals the
sum over all edges `D → X` of all out-direction class counts, and
`in_counts[D]` (`links_in`) equals the sum of all in-direction class
counts. -/
theorem C5_conservation (events : List LinkEvent) (D : Domain) :
    findD D 0 (load_links events).out_counts =
        rowOutTotal (findD D [] (load_links events).links) ∧
      findD D 0 (load_links events).in_counts =
        rowInTotal (findD D [] (load_links events).links) :=
  ⟨(aggInv_load_links events).2.1 D, (aggInv_load_links events).2.2 D⟩

/-! ## Scoring (make_web.py lines 154-177)

`decimal` arithmetic at precision 3 is modelled exactly: raw scores are
natural numbers and `Decimal.ln` is `Real.log`.  A micro-format class
outside `MF2_WEIGHTS` raises `KeyError` in the source; a domain all of
whose edges have raw score 0 leaves `max_score` as the Python int `0`,
whose missing `.ln()` raises `AttributeError`.  Both aborts are modelled
by `Option.none`. -/

def MF2_WEIGHTS : List (String × Nat) :=
  [("in-reply-to", 5), ("invitee", 5), ("quotation-of", 3), ("repost-of", 3),
   ("like-of", 2), ("favorite-of", 2), ("bookmark-of", 2), ("other", 1)]

def DIRECTION_WEIGHTS : List (String × Nat) := [("out", 2), ("in", 1)]

/-- Lookup `d[k]` on a plain dict: `KeyError` when absent is `none`. -/
def findKey {α β : Type _} [DecidableEq α] (k : α) : List (α × β) → Option β
  | [] => none
  | (k', v) :: rest => if k' = k then some v else findKey k rest

/-- The sum of `count * MF2_WEIGHTS[mf2] * dirW` over one direction's class counts. -/
def weightedSum (dirW : Nat) : List (String × Nat) → Option Nat
  | [] => some 0
  | (c, n) :: rest =>
      match findKey c MF2_WEIGHTS, weightedSum dirW rest with
      | some w, some s => some (n * w * dirW + s)
      | _, _ => none

/-- The raw (unnormalized) score of one edge bucket: the inner double loop of
the scoring pass. -/
def rawScore (b : EdgeBucket) : Option Nat :=
  match weightedSum (findD "out" 0 DIRECTION_WEIGHTS) b.out,
      weightedSum (findD "in" 0 DIRECTION_WEIGHTS) b.in_ with
  | some so, some si => some (so + si)
  | _, _ => none

/-- The normalization at lines 175-177:
`0 if score <= 1 else 1 if max_score_ln == 0 else score.ln() / max_score_ln`. -/
noncomputable def normScore (m s : Nat) : ℝ :=
  if s ≤ 1 then 0
  else if Real.log m = 0 then 1
  else Real.log s / Real.log m

/-- An edge bucket after scoring: the class counts plus the normalized
`score` entry. -/
structure ScoredBucket where
  out : List (String × Nat)
  in_ : List (String × Nat)
  score : ℝ

/-- First scoring half-pass over one domain's row: attach the raw score to
every bucket (`stats['score'] = score`), failing on an unknown class. -/
def rawRow : List (Domain × EdgeBucket) →
    Option (List (Domain × EdgeBucket × Nat))
  | [] => some []
  | p :: rest =>
      match rawScore p.2, rawRow rest with
      | some s, some r => some ((p.1, p.2, s) :: r)
      | _, _ => none

/-- The value `max_score` accumulated over the raw scores of a row, starting from 0. -/
def rowFoldMax (raws : List (Domain × EdgeBucket × Nat)) : Nat :=
  raws.foldl (fun acc q => max acc q.2.2) 0

/-- Scoring of one domain's row: raw scores, the per-domain maximum, then
normalization.  `rowFoldMax raws = 0` means no raw score exceeded the int 0,
so `max_score.ln()` raises (`none`). -/
noncomputable def scoreRow (row : List (Domain × EdgeBucket)) :
    Option (List (Domain × ScoredBucket)) :=
  match rawRow row with
  | none => none
  | some raws =>
      if rowFoldMax raws = 0 then none
      else some (raws.map (fun q =>
        (q.1, ⟨q.2.1.out, q.2.1.in_, normScore (rowFoldMax raws) q.2.2⟩)))

/-- The whole scoring pass over `links.values()`. -/
noncomputable def scoreGraph : List (Domain × List (Domain × EdgeBucket)) →
    Option (List (Domain × List (Domain × ScoredBucket)))
  | [] => some []
  | p :: rest =>
      match scoreRow p.2, scoreGraph rest with
      | some r, some g => some ((p.1, r) :: g)
      | _, _ => none

/-- Raw score recomputed from a scored bucket (scoring preserves the class
counts, so this is the bucket's pre-normalization score). -/
def rawScoreS (b : ScoredBucket) : Option Nat := rawScore ⟨b.out, b.in_⟩

def rawListS : List (Domain × ScoredBucket) → Option (List Nat)
  | [] => some []
  | p :: rest =>
      match rawScoreS p.2, rawListS rest with
      | some s, some r => some (s :: r)
      | _, _ => none

/-- The maximum raw score of a scored row (as the code computes it: a fold
with initial value 0). -/
def rowMaxS (srow : List (Domain × ScoredBucket)) : Option Nat :=
  (rawListS srow).map (fun l => l.foldl max 0)

theorem le_foldl_max (f : α → Nat) (l : List α) :
    ∀ i : Nat, (∀ x ∈ l, f x ≤ l.foldl (fun a y => max a (f y)) i) ∧
      i ≤ l.foldl (fun a y => max a (f y)) i := by
  induction l with
  | nil =>
      intro i
      refine ⟨?_, le_refl i⟩
      intro x hx
      cases hx
  | cons y rest ih =>
      intro i
      obtain ⟨hmem, hinit⟩ := ih (max i (f y))
      refine ⟨?_, ?_⟩
      · intro x hx
        rcases List.mem_cons.mp hx with h | h
        · subst h
          exact le_trans (le_max_right i (f x)) hinit
        · exact hmem x h
      · exact le_trans (le_max_left i (f y)) hinit

theorem rawRow_spec (row : List (Domain × EdgeBucket))
    (raws : List (Domain × EdgeBucket × Nat)) (h : rawRow row = some raws) :
    ∀ q ∈ raws, rawScore q.2.1 = some q.2.2 := by
  induction row generalizing raws with
  | nil =>
      simp only [rawRow, Option.some.injEq] at h
      subst h; intro q hq; cases hq
  | cons p rest ih =>
      rw [rawRow] at h
      cases hs : rawScore p.2 with
      | none => rw [hs] at h; cases h
      | some s =>
          rw [hs] at h
          cases hr : rawRow rest with
          | none => rw [hr] at h; cases h
          | some r =>
              rw [hr] at h
              simp only [Option.some.injEq] at h
              subst h
              intro q hq
              rcases List.mem_cons.mp hq with h' | h'
              · subst h'; exact hs
              · exact ih r hr q h'

theorem scoreRow_spec (row : List (Domain × EdgeBucket))
    (srow : List (Domain × ScoredBucket)) (h : scoreRow row = some srow) :
    ∃ m : Nat, 0 < m ∧ rowMaxS srow = some m ∧
      ∀ p ∈ srow, ∃ s : Nat,
        rawScoreS p.2 = some s ∧ s ≤ m ∧ p.2.score = normScore m s := by
  unfold scoreRow at h
  cases hr : rawRow row with
  | none => rw [hr] at h; cases h
  | some raws =>
      rw [hr] at h
      dsimp only at h
      by_cases hm : rowFoldMax raws = 0
      · rw [if_pos hm] at h; cases h
      · rw [if_neg hm] at h
        simp only [Option.some.injEq] at h
        refine ⟨rowFoldMax raws, Nat.pos_of_ne_zero hm, ?_, ?_⟩
        · -- rowMaxS of the mapped row recomputes the same fold
          have hspec := rawRow_spec row raws hr
          have hgen : ∀ (raws' : List (Domain × EdgeBucket × Nat))
              (f : Domain × EdgeBucket × Nat → ℝ),
              (∀ q ∈ raws', rawScore q.2.1 = some q.2.2) →
              rawListS (raws'.map (fun q =>
                  (q.1, ⟨q.2.1.out, q.2.1.in_, f q⟩))) =
                some (raws'.map (fun q => q.2.2)) := by
            intro raws' f hsp
            induction raws' with
            | nil => rfl
            | cons q rest ihq =>
                have hhead : rawScoreS ⟨q.2.1.out, q.2.1.in_, f q⟩ =
                    some q.2.2 := hsp q (List.mem_cons_self _ _)
                simp only [List.map_cons, rawListS, hhead,
                  ihq (fun q hq => hsp q (List.mem_cons_of_mem _ hq))]
          have hrl : rawListS srow = some (raws.map (fun q => q.2.2)) := by
            subst h
            exact hgen raws _ hspec
          rw [rowMaxS, hrl]
          simp only [Option.map_some', Option.some.injEq, rowFoldMax]
          rw [List.foldl_map]
        · intro p hp
          subst h
          rcases List.mem_map.mp hp with ⟨q, hq, hpe⟩
          refine ⟨q.2.2, ?_, ?_, ?_⟩
          · have := rawRow_spec row raws hr q hq
            rw [← hpe]
            simpa [rawScoreS] using this
          · have := (le_foldl_max (fun q => q.2.2) raws 0).1 q hq
            simpa [rowFoldMax] using this
          · rw [← hpe]

theorem scoreGraph_mem (L : List (Domain × List (Domain × EdgeBucket)))
    (G : List (Domain × List (Domain × ScoredBucket)))
    (hG : scoreGraph L = some G) (D : Domain)
    (srow : List (Domain × ScoredBucket)) (hmem : (D, srow) ∈ G) :
    ∃ row, (D, row) ∈ L ∧ scoreRow row = some srow := by
  induction L generalizing G with
  | nil =>
      simp only [scoreGraph, Option.some.injEq] at hG
      subst hG; cases hmem
  | cons p rest ih =>
      obtain ⟨pd, prow⟩ := p
      rw [scoreGraph] at hG
      cases hr : scoreRow prow with
      | none => rw [hr] at hG; cases hG
      | some r =>
          rw [hr] at hG
          cases hg : scoreGraph rest with
          | none => rw [hg] at hG; cases hG
          | some g =>
              rw [hg] at hG
              simp only [Option.some.injEq] at hG
              subst hG
              rcases List.mem_cons.mp hmem with h' | h'
              · injection h' with h1 h2
                subst h1; subst h2
                exact ⟨prow, List.mem_cons_self _ _, hr⟩
              · obtain ⟨row, hrow, hsc⟩ := ih g hg h'
                exact ⟨row, List.mem_cons_of_mem _ hrow, hsc⟩

/-- C1: in the scored graph, for every domain: every edge whose raw score
equals the domain's maximum raw score has normalized score exactly 1 —
unless the maximum raw score is ≤ 1, in which case every edge of the domain
has normalized score 0. -/
theorem C1_max_normalized (events : List LinkEvent)
    (G : List (Domain × List (Domain × ScoredBucket)))
    (hG : scoreGraph (load_links events).links = some G)
    (D : Domain) (srow : List (Domain × ScoredBucket)) (hmem : (D, srow) ∈ G)
    (m : Nat) (hm : rowMaxS srow = some m)
    (X : Domain) (sb : ScoredBucket) (hsb : (X, sb) ∈ srow)
    (s : Nat) (hs : rawScoreS sb = some s) :
    (m ≤ 1 → sb.score = 0) ∧ (1 < m → s = m → sb.score = 1) := by
  obtain ⟨row, _, hscore⟩ := scoreGraph_mem _ G hG D srow hmem
  obtain ⟨m', hm'pos, hm', hall⟩ := scoreRow_spec row srow hscore
  obtain ⟨s', hs', hle, hsc⟩ := hall (X, sb) hsb
  have hmm : m' = m := Option.some.inj (hm'.symm.trans hm)
  have hss : s' = s := Option.some.inj (hs'.symm.trans hs)
  rw [hmm, hss] at hsc
  rw [hss, hmm] at hle
  constructor
  · intro hm1
    rw [hsc, normScore, if_pos (le_trans hle hm1)]
  · intro hm1 hsm
    rw [hsc, hsm, normScore, if_neg (by omega)]
    have hlog : Real.log m ≠ 0 := by
      have : (1 : ℝ) < (m : ℝ) := by exact_mod_cast hm1
      exact ne_of_gt (Real.log_pos this)
    rw [if_neg hlog, div_self hlog]

/-- The spec §8 example event: `a.com` links to `b.com` 3 times with class
`in-reply-to`. -/
def wEvents : List LinkEvent := [⟨"a.com", "b.com", 3, some "in-reply-to"⟩]

noncomputable def wSB : ScoredBucket :=
  ⟨[("in-reply-to", 3)], [], normScore 30 30⟩

noncomputable def wSrowA : List (Domain × ScoredBucket) := [("b.com", wSB)]

noncomputable def wSrowB : List (Domain × ScoredBucket) :=
  [("a.com", ⟨[], [("in-reply-to", 3)], normScore 15 15⟩)]

noncomputable def wG : List (Domain × List (Domain × ScoredBucket)) :=
  [("a.com", wSrowA), ("b.com", wSrowB)]

theorem C1_max_normalized_witness : wSB.score = 1 :=
  (C1_max_normalized wEvents wG rfl "a.com" wSrowA (by simp [wG]) 30 rfl
    "b.com" wSB (by simp [wSrowA]) 30 rfl).2 (by norm_num) rfl

/-! ## Link ordering (make_web.py lines 246-248)

`OrderedDict(sorted(domain_links.items(), key=lambda item: item[1]['score'],
reverse=True))`: Python's `sorted` is a stable mergesort; with
`reverse=True` it orders by descending key and equal keys keep their
original (insertion) order.  That is exactly `List.mergeSort` with the
comparison `scoreLe p q ↔ q.score ≤ p.score`. -/

noncomputable def scoreLe (p q : Domain × ScoredBucket) : Bool :=
  decide (q.2.score ≤ p.2.score)

noncomputable def sortRow (row : List (Domain × ScoredBucket)) :
    List (Domain × ScoredBucket) :=
  row.mergeSort scoreLe

theorem scoreLe_trans (a b c : Domain × ScoredBucket) :
    scoreLe a b → scoreLe b c → scoreLe a c := by
  simp only [scoreLe, decide_eq_true_eq]
  exact fun h1 h2 => le_trans h2 h1

theorem scoreLe_total (a b : Domain × ScoredBucket) :
    scoreLe a b || scoreLe b a := by
  simp only [scoreLe]
  rcases le_total a.2.score b.2.score with h | h <;> simp [h]

/-! ## Python value helpers

`truthy` models Python truthiness (`if v:`), `pyInt` models `int(v)`
(`none` = `TypeError`/`ValueError`), `JVal.beq` models `==` on
JSON-decoded values (Python's `1 == True` identification is not modelled;
no claim depends on it). -/

def truthy : JVal → Bool
  | .null => false
  | .bool b => b
  | .num n => n != 0
  | .str s => !s.data.isEmpty
  | .arr l => !l.isEmpty
  | .obj l => !l.isEmpty

def truthyO : Option JVal → Bool
  | none => false
  | some v => truthy v

/-- Digit-string value; `none` unless nonempty and all decimal digits. -/
def digitsVal : List Char → Option Nat
  | [] => none
  | cs => cs.foldlM
      (fun acc c =>
        if c.isDigit then some (acc * 10 + (c.toNat - 48)) else none) 0

/-- Python `int(s)` on a string: optional surrounding whitespace, optional
sign, decimal digits (digit-group underscores are not modelled). -/
def parsePyInt (s : String) : Option Int :=
  let cs := s.data.dropWhile Char.isWhitespace
  let cs := (cs.reverse.dropWhile Char.isWhitespace).reverse
  match cs with
  | '-' :: rest => (digitsVal rest).map (fun n => -(n : Int))
  | '+' :: rest => (digitsVal rest).map (fun n => (n : Int))
  | rest => (digitsVal rest).map (fun n => (n : Int))

/-- Python `int(v)` on a JSON value (numbers are modelled as integers already). -/
def pyInt : JVal → Option Int
  | .num n => some n
  | .bool b => some (if b then 1 else 0)
  | .str s => parsePyInt s
  | _ => none

mutual

/-- Python `==` on JSON values. -/
def JVal.beq : JVal → JVal → Bool
  | .null, .null => true
  | .bool a, .bool b => a == b
  | .num a, .num b => a == b
  | .str a, .str b => a == b
  | .arr a, .arr b => JVal.beqList a b
  | .obj a, .obj b => JVal.beqObj a b
  | _, _ => false

def JVal.beqList : List JVal → List JVal → Bool
  | [], [] => true
  | x :: xs, y :: ys => JVal.beq x y && JVal.beqList xs ys
  | _, _ => false

def JVal.beqObj : List (String × JVal) → List (String × JVal) → Bool
  | [], [] => true
  | (k, v) :: xs, (k', v') :: ys =>
      k == k' && JVal.beq v v' && JVal.beqObj xs ys
  | _, _ => false

end

instance : BEq JVal := ⟨JVal.beq⟩

/-! ## A model of `json.loads` (used for the `hcard` field)

Recursive-descent parser over the character list, with a fuel argument
bounding nesting depth.  A well-formed (sub-)JSON document yields `some`;
a malformed one yields `none`, modelling the uncaught `JSONDecodeError`.
Simplifications (documented, not exercised by any claim): numbers are
integers only (fraction/exponent parts are rejected), and `\uXXXX` string
escapes are rejected. -/

def jsonWs (c : Char) : Bool := c = ' ' || c = '\t' || c = '\n' || c = '\r'

def jskipWs (cs : List Char) : List Char := cs.dropWhile jsonWs

def parseStrChars : List Char → Option (List Char × List Char)
  | [] => none
  | '"' :: rest => some ([], rest)
  | '\\' :: c :: rest =>
      match (match c with
        | '"' => some '"'
        | '\\' => some '\\'
        | '/' => some '/'
        | 'n' => some '\n'
        | 't' => some '\t'
        | 'r' => some '\r'
        | 'b' => some (Char.ofNat 8)
        | 'f' => some (Char.ofNat 12)
        | _ => none) with
      | some e =>
          match parseStrChars rest with
          | some (s, r) => some (e :: s, r)
          | none => none
      | none => none
  | c :: rest =>
      match parseStrChars rest with
      | some (s, r) => some (c :: s, r)
      | none => none

/-- Parse the integer after an optional leading minus (strict JSON: no
leading zeros, and a following `.`/`e`/`E` — a float — is rejected). -/
def parseJNum (cs : List Char) : Option (JVal × List Char) :=
  let (neg, cs) := match cs with
    | '-' :: rest => (true, rest)
    | _ => (false, cs)
  let ds := cs.takeWhile Char.isDigit
  let rest := cs.dropWhile Char.isDigit
  if ds.isEmpty then none
  else if ds.length > 1 && ds.headD '0' = '0' then none
  else match rest with
    | '.' :: _ => none
    | 'e' :: _ => none
    | 'E' :: _ => none
    | _ =>
        match digitsVal ds with
        | some n => some (.num (if neg then -(n : Int) else (n : Int)), rest)
        | none => none

mutual

def parseJ : Nat → List Char → Option (JVal × List Char)
  | 0, _ => none
  | fuel + 1, cs =>
      match jskipWs cs with
      | 'n' :: 'u' :: 'l' :: 'l' :: rest => some (.null, rest)
      | 't' :: 'r' :: 'u' :: 'e' :: rest => some (.bool true, rest)
      | 'f' :: 'a' :: 'l' :: 's' :: 'e' :: rest => some (.bool false, rest)
      | '"' :: rest =>
          match parseStrChars rest with
          | some (s, r) => some (.str (String.mk s), r)
          | none => none
      | '[' :: rest => parseArr fuel rest
      | '\x7b' :: rest => parseObj fuel rest
      | rest => parseJNum rest

def parseArr : Nat → List Char → Option (JVal × List Char)
  | 0, _ => none
  | fuel + 1, cs =>
      match jskipWs cs with
      | ']' :: rest => some (.arr [], rest)
      | cs' =>
          match parseArrElems fuel cs' with
          | some (vs, r) => some (.arr vs, r)
          | none => none

def parseArrElems : Nat → List Char → Option (List JVal × List Char)
  | 0, _ => none
  | fuel + 1, cs =>
      match parseJ fuel cs with
      | some (v, r) =>
          match jskipWs r with
          | ',' :: r2 =>
              match parseArrElems fuel r2 with
              | some (vs, r3) => some (v :: vs, r3)
              | none => none
          | ']' :: r2 => some ([v], r2)
          | _ => none
      | none => none

def parseObj : Nat → List Char → Option (JVal × List Char)
  | 0, _ => none
  | fuel + 1, cs =>
      match jskipWs cs with
      | '\x7d' :: rest => some (.obj [], rest)
      | cs' =>
          match parseObjElems fuel cs' with
          | some (kvs, r) => some (.obj kvs, r)
          | none => none

def parseObjElems : Nat → List Char → Option (List (String × JVal) × List Char)
  | 0, _ => none
  | fuel + 1, cs =>
      match jskipWs cs with
      | '"' :: rest =>
          match parseStrChars rest with
          | some (k, r) =>
              match jskipWs r with
              | ':' :: r2 =>
                  match parseJ fuel r2 with
                  | some (v, r3) =>
                      match jskipWs r3 with
                      | ',' :: r4 =>
                          match parseObjElems fuel r4 with
                          | some (kvs, r5) =>
                              some ((String.mk k, v) :: kvs, r5)
                          | none => none
                      | '\x7d' :: r4 => some ([(String.mk k, v)], r4)
                      | _ => none
                  | none => none
              | _ => none
          | none => none
      | _ => none

end

/-- Model of `json.loads`: parse one document and require only whitespace after it. -/
def jsonParse (s : String) : Option JVal :=
  match parseJ (s.data.length + 1) s.data with
  | some (v, rest) => if (jskipWs rest).isEmpty then some v else none
  | none => none

/-! ## Crawl-time conversion

`datetime(*time.gmtime(int(ts))[:6]).isoformat('T')`: split the epoch into
days and second-of-day (floor semantics, as `gmtime` does for negative
epochs), convert days to a civil date, and format
`YYYY-MM-DDTHH:MM:SS`.  (`datetime`'s year range 1..9999 check is not
modelled.) -/

def pad2 (n : Nat) : String := if n < 10 then "0" ++ toString n else toString n

def pad4 (n : Nat) : String :=
  if n < 10 then "000" ++ toString n
  else if n < 100 then "00" ++ toString n
  else if n < 1000 then "0" ++ toString n
  else toString n

def epochToISO (t : Int) : String :=
  let days : Int := t.fdiv 86400
  let sod : Nat := (t.emod 86400).toNat
  let hh := sod / 3600
  let mi := sod % 3600 / 60
  let ss := sod % 60
  let z : Int := days + 719468
  let era : Int := z.fdiv 146097
  let doe : Nat := (z.emod 146097).toNat
  let yoe : Nat := (doe - doe / 1460 + doe / 36524 - doe / 146096) / 365
  let y0 : Int := (yoe : Int) + era * 400
  let doy : Nat := doe - (365 * yoe + yoe / 4 - yoe / 100)
  let mp : Nat := (5 * doy + 2) / 153
  let d : Nat := doy - (153 * mp + 2) / 5 + 1
  let mo : Nat := if mp < 10 then mp + 3 else mp - 9
  let y : Int := if mo ≤ 2 then y0 + 1 else y0
  pad4 y.toNat ++ "-" ++ pad2 mo ++ "-" ++ pad2 d ++ "T" ++
    pad2 hh ++ ":" ++ pad2 mi ++ ":" ++ pad2 ss

/-! ## Site records and dict operations

An input site record (one line of `sites.json` or of an extra file) is an
association list of string keys to JSON values, like the Python dict it
becomes after `json.loads`. -/

abbrev Rec := List (String × JVal)

/-- Assignment `d[k] = v`: replace in place, or append when absent. -/
def setKey (k : String) (v : JVal) (r : Rec) : Rec :=
  updateAList k v (fun _ => v) r

/-- Removal `d.pop(k, ...)` / `del d[k]`: remove the key. -/
def eraseKey (k : String) (r : Rec) : Rec :=
  r.filter (fun p => p.1 != k)

/-- Merge `dst.update(src)`: set every key of `src` in `dst`, in order. -/
def dictUpdate (dst src : Rec) : Rec :=
  src.foldl (fun acc p => setKey p.1 p.2 acc) dst

/-! ## Static configuration (make_web.py lines 55-75)

`TAGS` is loaded from text files under `../crawl/` that are not part of the
repository, so the tag table is a parameter; the remaining tables are
literals in the source. -/

structure Config where
  tags : List (String × List String)

def TAGS_NO_SUBDOMAINS : List String := ["micro.blog", "withknown.com"]

def SERVERS : List (String × String) :=
  [("Known http://withknown.com", "Known"),
   ("Known https://withknown.com", "Known")]

def SERVER_TAGS : List String := ["Known", "WordPress"]

def MAX_BASE_LINKS : Nat := 500

/-- One canonical output site record.  The free-form dict entries stay in
`fields`; the entries the assembly computes (`domain`, `tags`, `servers`,
`hcard`, `links_out`, `links_in`, `links`) are structure fields
(`servers` is `none` when the key was never created;
`links_truncated = true` models the presence of the flag key). -/
structure SiteRec where
  domain : String
  fields : List (String × JVal)
  tags : List JVal
  servers : Option JVal
  hcard : JVal
  links_out : Nat
  links_in : Nat
  links : List (Domain × ScoredBucket)
  links_truncated : Bool

/-! ## Site assembly: the loop body of `make_full` (lines 190-251) -/

/-- Source: `domain == tag_domain or (domain.endswith('.' + tag_domain) and
tag_domain not in TAGS_NO_SUBDOMAINS)`. -/
def tagMatches (domain td : String) : Bool :=
  domain == td ||
    (('.' :: td.data).isSuffixOf domain.data &&
      !(TAGS_NO_SUBDOMAINS.contains td))

/-- The `TAGS` loop: append each matching tag name once, in table order. -/
def inferredTags (cfg : Config) (domain : String) : List String :=
  cfg.tags.foldl
    (fun acc p => if p.2.any (tagMatches domain) then acc ++ [p.1] else acc)
    []

/-- Lookup `SERVERS.get(gen, gen)` (string canonicalization). -/
def canonGen : JVal → JVal
  | .str s => .str (findD s s SERVERS)
  | v => v

/-- The generator loop body: canonicalize and append if not already seen. -/
def addGens (l gens : List JVal) : List JVal :=
  gens.foldl
    (fun acc g =>
      let g' := canonGen g
      if acc.contains g' then acc else acc ++ [g'])
    l

/-- Read of `site['domain']`; a missing key is the fatal `KeyError`.  A non-string
domain value is treated as fatal too (the pipeline uses it as a graph key
and file name). -/
def getDomain (site : Rec) : Option String :=
  match findKey "domain" site with
  | some (.str d) => some d
  | _ => none

/-- Source: `site.update(all_extra[domain]); site.pop('mf2'); site.pop('html')`. -/
def step_extras (allExtra : Domain → Rec) (site0 : Rec) : Option (String × Rec) :=
  match getDomain site0 with
  | some d =>
      some (d, eraseKey "html" (eraseKey "mf2" (dictUpdate site0 (allExtra d))))
  | none => none

/-- Source: `num_pages = site.get('num_pages'); if num_pages: site['num_pages'] =
int(num_pages)`; an unparsable truthy value raises (fatal). -/
def step_numPages (site : Rec) : Option Rec :=
  match findKey "num_pages" site with
  | none => some site
  | some v =>
      if truthy v then
        match pyInt v with
        | some n => some (setKey "num_pages" (.num n) site)
        | none => none
      else some site

/-- Source: `tags = site.setdefault('tags', [])`: an existing non-list value makes
the later `.append` raise (fatal). -/
def step_tags0 (site : Rec) : Option (List JVal) :=
  match findKey "tags" site with
  | some (.arr l) => some l
  | some _ => none
  | none => some []

/-- The `rel_generators`/`meta_generators` pop, with default `[]`; a non-list
value makes the list concatenation raise (fatal). -/
def asGenList : Option JVal → Option (List JVal)
  | none => some []
  | some (.arr l) => some l
  | some _ => none

/-- The `servers` value after the generator loop (`none` = key absent).
The loop runs `site.setdefault('servers', [])` only when there is at least
one generator; appending to an existing non-list raises (fatal). -/
def step_servers (v0 : Option JVal) (gens : List JVal) : Option (Option JVal) :=
  match gens with
  | [] => some v0
  | _ =>
      match v0 with
      | none => some (some (.arr (addGens [] gens)))
      | some (.arr l) => some (some (.arr (addGens l gens)))
      | some _ => none

/-- Source: `for server in site.get('servers', [])`: iterating a string yields its
characters and iterating a dict yields its keys (as Python does); a
non-iterable raises (fatal). -/
def serverIter : Option JVal → Option (List JVal)
  | none => some []
  | some (.arr l) => some l
  | some (.str s) => some (s.data.map (fun c => .str (String.mk [c])))
  | some (.obj l) => some (l.map (fun p => .str p.1))
  | some _ => none

/-- Source: `if server in SERVER_TAGS: tags.append(server)`. -/
def serverTagList (servers : List JVal) : List JVal :=
  servers.filter (fun v =>
    match v with
    | .str s => SERVER_TAGS.contains s
    | _ => false)

/-- The crawl-times block (lines 229-238): pop `fetch_time`; if
`crawl_start` and `crawl_end` are both truthy, convert each with
`int(ts)`+`gmtime`+`isoformat` (an unparsable value raises, fatal);
otherwise, if the popped `fetch_time` is truthy, assign it unchanged to
both keys. -/
def step_crawl (site : Rec) : Option Rec :=
  let fetch := findKey "fetch_time" site
  let site1 := eraseKey "fetch_time" site
  let start := findKey "crawl_start" site1
  let endv := findKey "crawl_end" site1
  if truthyO start && truthyO endv then
    match start, endv with
    | some sv, some ev =>
        match pyInt sv, pyInt ev with
        | some si, some ei =>
            some (setKey "crawl_end" (.str (epochToISO ei))
              (setKey "crawl_start" (.str (epochToISO si)) site1))
        | _, _ => none
    | _, _ => none
  else
    match fetch with
    | some fv =>
        if truthy fv then
          some (setKey "crawl_end" fv (setKey "crawl_start" fv site1))
        else some site1
    | none => some site1

/-- Source: `json.loads(site.get('hcard', '{}')) or { }`: absent → empty object;
a string parses (a falsy result becomes the empty object, malformed JSON
raises, fatal); a non-string value makes `json.loads` raise (fatal). -/
def step_hcard (site : Rec) : Option JVal :=
  match findKey "hcard" site with
  | none => some (.obj [])
  | some (.str s) =>
      match jsonParse s with
      | some v => some (if truthy v then v else .obj [])
      | none => none
  | some _ => none

/-- The dict keys superseded by `SiteRec` structure fields. -/
def finalFields (site : Rec) : List (String × JVal) :=
  eraseKey "domain" (eraseKey "tags" (eraseKey "servers" (eraseKey "hcard"
    (eraseKey "links_out" (eraseKey "links_in" (eraseKey "links" site))))))

/-- One iteration of the `make_full` emission loop: build the output record
for one input site object. -/
noncomputable def assembleSite (cfg : Config) (allExtra : Domain → Rec)
    (scored : List (Domain × List (Domain × ScoredBucket)))
    (out_counts in_counts : List (Domain × Nat)) (site0 : Rec) :
    Option SiteRec :=
  match step_extras allExtra site0 with
  | none => none
  | some (domain, site1) =>
      match step_numPages site1 with
      | none => none
      | some site2 =>
          match step_tags0 site2 with
          | none => none
          | some tags0 =>
              let tags1 := tags0 ++ (inferredTags cfg domain).map .str
              let tags2 := tags1 ++
                (if truthyO (findKey "webmention_endpoints" site2) then
                  [JVal.str "webmention"] else []) ++
                (if truthyO (findKey "micropub_endpoints" site2) then
                  [JVal.str "micropub"] else [])
              match asGenList (findKey "rel_generators" site2),
                  asGenList (findKey "meta_generators" site2) with
              | some rels, some metas =>
                  let site3 := eraseKey "meta_generators"
                    (eraseKey "rel_generators" site2)
                  match step_servers (findKey "servers" site3)
                      (rels ++ metas) with
                  | none => none
                  | some servers =>
                      match serverIter servers with
                      | none => none
                      | some serverVals =>
                          let tags3 := tags2 ++ serverTagList serverVals
                          match step_crawl site3 with
                          | none => none
                          | some site4 =>
                              match step_hcard site4 with
                              | none => none
                              | some hcard =>
                                  some
                                    { domain := domain,
                                      fields := finalFields site4,
                                      tags := tags3,
                                      servers := servers,
                                      hcard := hcard,
                                      links_out :=
                                        findD domain 0 out_counts,
                                      links_in := findD domain 0 in_counts,
                                      links :=
                                        sortRow (findD domain [] scored),
                                      links_truncated := false }
              | _, _ => none

/-! ## `make_full` (lines 141-251), `make_base` (254-275),
`make_internal` (278-301) -/

/-- Source: `all_extra[site['domain']].update(site)` for one extra record. -/
def addExtraSite (acc : List (String × Rec)) (site : Rec) :
    Option (List (String × Rec)) :=
  match getDomain site with
  | some d => some (updateAList d [] (fun r => dictUpdate r site) acc)
  | none => none

/-- The extra-collection loop over all records of all extra files. -/
def collectExtras (acc : List (String × Rec)) :
    List Rec → Option (List (String × Rec))
  | [] => some acc
  | s :: rest =>
      match addExtraSite acc s with
      | some acc' => collectExtras acc' rest
      | none => none

/-- Source: `site['domain'] for site in sites` (fatal on a missing domain). -/
def getDomains : List Rec → Option (List String)
  | [] => some []
  | s :: rest =>
      match getDomain s, getDomains rest with
      | some d, some ds => some (d :: ds)
      | _, _ => none

/-- The per-site emission loop of `make_full`. -/
noncomputable def assembleAll (cfg : Config) (allExtra : Domain → Rec)
    (scored : List (Domain × List (Domain × ScoredBucket)))
    (out_counts in_counts : List (Domain × Nat)) :
    List Rec → Option (List SiteRec)
  | [] => some []
  | s :: rest =>
      match assembleSite cfg allExtra scored out_counts in_counts s,
          assembleAll cfg allExtra scored out_counts in_counts rest with
      | some r, some rs => some (r :: rs)
      | _, _ => none

/-- The function `make_full`: aggregate and score the links, collect the extra data,
append stub records (`{'domain': d}`) for from-domains not in the site
list (in lexicographic order), and emit one output record per site. -/
noncomputable def make_full (sites : List Rec) (links_input : List LinkEvent)
    (extras : List (List Rec)) (cfg : Config) : Option (List SiteRec) :=
  let st := load_links links_input
  match scoreGraph st.links with
  | none => none
  | some scored =>
      match collectExtras [] extras.flatten with
      | none => none
      | some allExtra =>
          match getDomains sites with
          | none => none
          | some siteDoms =>
              let more := (st.from_domains.filter
                  (fun d => !(siteDoms.contains d))).mergeSort
                (fun a b => decide (a ≤ b))
              let moreSites : List Rec :=
                more.map (fun d => [("domain", JVal.str d)])
              assembleAll cfg (fun d => findD d [] allExtra) scored
                st.out_counts st.in_counts (sites ++ moreSites)

/-- The function `make_base`: deep-copy each record; cap `links` at `MAX_BASE_LINKS`
entries and set the `links_truncated` flag when over the cap. -/
def make_base (full : List SiteRec) : List SiteRec :=
  full.map (fun site =>
    if MAX_BASE_LINKS < site.links.length then
      { site with
        links := site.links.take MAX_BASE_LINKS,
        links_truncated := true }
    else site)

/-- The function `make_internal`: keep only records whose domain is in `domains`, and
filter each kept record's `links` to targets in `domains`. -/
def make_internal (full : List SiteRec) (domains : List Domain) :
    List SiteRec :=
  (full.filter (fun s => domains.contains s.domain)).map
    (fun s =>
      { s with links := s.links.filter (fun p => domains.contains p.1) })

/-- A minimal concrete site record used by witnesses. -/
def wRec : SiteRec :=
  { domain := "a.com", fields := [], tags := [], servers := none,
    hcard := .obj [], links_out := 0, links_in := 0, links := [],
    links_truncated := false }

/-- C3: the internal view contains exactly the full records whose domain is
in the supplied set (others are dropped entirely), and each kept record is
unchanged except that `links` is filtered to targets inside the set. -/
theorem C3_internal_exact (full : List SiteRec) (domains : List Domain) :
    (∀ s ∈ make_internal full domains, s.domain ∈ domains ∧
        (∀ p ∈ s.links, p.1 ∈ domains) ∧
        ∃ t ∈ full, t.domain = s.domain ∧
          s.links = t.links.filter (fun p => domains.contains p.1) ∧
          s.fields = t.fields ∧ s.tags = t.tags ∧ s.servers = t.servers ∧
          s.hcard = t.hcard ∧ s.links_out = t.links_out ∧
          s.links_in = t.links_in ∧
          s.links_truncated = t.links_truncated) ∧
      (∀ t ∈ full, t.domain ∈ domains →
        { t with
          links := t.links.filter (fun p => domains.contains p.1) } ∈
            make_internal full domains) := by
  constructor
  · intro s hs
    rcases List.mem_map.mp hs with ⟨t, htf, rfl⟩
    rcases List.mem_filter.mp htf with ⟨htfull, hdom⟩
    refine ⟨?_, ?_, t, htfull, rfl, rfl, rfl, rfl, rfl, rfl, rfl, rfl, rfl⟩
    · simpa using hdom
    · intro p hp
      have := (List.mem_filter.mp hp).2
      simpa using this
  · intro t ht hdom
    exact List.mem_map.mpr
      ⟨t, List.mem_filter.mpr ⟨ht, by simpa using hdom⟩, rfl⟩

theorem C3_internal_exact_witness :
    { wRec with
      links := wRec.links.filter (fun p => ["a.com"].contains p.1) } ∈
        make_internal [wRec] ["a.com"] :=
  (C3_internal_exact [wRec] ["a.com"]).2 wRec (by simp) (by simp [wRec])

/-! ## Ordering of the emitted `links` mappings (C6) -/

theorem sublist_pair_or {α : Type _} {a b : α} {l : List α}
    (ha : a ∈ l) (hb : b ∈ l) (hab : a ≠ b) :
    [a, b] <+ l ∨ [b, a] <+ l := by
  induction l with
  | nil => cases ha
  | cons x l' ih =>
      rcases List.mem_cons.mp ha with rfl | ha'
      · left
        have hb' : b ∈ l' := by
          rcases List.mem_cons.mp hb with h | h
          · exact absurd h.symm hab
          · exact h
        exact (List.singleton_sublist.mpr hb').cons₂ a
      · rcases List.mem_cons.mp hb with rfl | hb'
        · right
          exact (List.singleton_sublist.mpr ha').cons₂ b
        · rcases ih ha' hb' with h | h
          · exact Or.inl (h.cons x)
          · exact Or.inr (h.cons x)

theorem sublist_pair_antisymm {α : Type _} {a b : α} :
    ∀ {l : List α}, l.Nodup → [a, b] <+ l → [b, a] <+ l → a = b := by
  intro l
  induction l with
  | nil =>
      intro _ h
      cases h
  | cons x l' ih =>
      intro hnd h1 h2
      have hx := List.nodup_cons.mp hnd
      cases h1 with
      | cons _ h1' =>
          cases h2 with
          | cons _ h2' => exact ih hx.2 h1' h2'
          | cons₂ _ h2' =>
              exact absurd (h1'.subset (by simp)) hx.1
      | cons₂ _ h1' =>
          cases h2 with
          | cons _ h2' =>
              exact absurd (h2'.subset (by simp)) hx.1
          | cons₂ _ h2' => rfl

theorem indexOf_lt_of_pair_sublist {α : Type _} [DecidableEq α] {x y : α} :
    ∀ {l : List α}, l.Nodup → [x, y] <+ l → l.indexOf x < l.indexOf y := by
  intro l
  induction l with
  | nil =>
      intro _ h
      cases h
  | cons z l' ih =>
      intro hnd h
      have hz := List.nodup_cons.mp hnd
      cases h with
      | cons _ h' =>
          have hxl : x ∈ l' := h'.subset (by simp)
          have hyl : y ∈ l' := h'.subset (by simp)
          have hzx : z ≠ x := fun e => hz.1 (e ▸ hxl)
          have hzy : z ≠ y := fun e => hz.1 (e ▸ hyl)
          rw [List.indexOf_cons_ne _ hzx, List.indexOf_cons_ne _ hzy]
          exact Nat.succ_lt_succ (ih hz.2 h')
      | cons₂ _ h' =>
          have hyl : y ∈ l' := h'.subset (by simp)
          have hxy : x ≠ y := fun e => hz.1 (e ▸ hyl)
          rw [List.indexOf_cons_self, List.indexOf_cons_ne _ hxy]
          exact Nat.succ_pos _

/-- The C6 ordering property of one emitted `links` list `L`, relative to
the aggregation row `R0` of the record's domain: scores are descending,
and entries with equal normalized score are ordered by the position at
which their target domain was first observed during aggregation (its
position in `R0`). -/
def linksOrderedWrt (R0 : List (Domain × EdgeBucket))
    (L : List (Domain × ScoredBucket)) : Prop :=
  L.Pairwise (fun p q => q.2.score ≤ p.2.score ∧
    (p.2.score = q.2.score →
      (R0.map Prod.fst).indexOf p.1 < (R0.map Prod.fst).indexOf q.1))

theorem sortRow_ordered (R0 : List (Domain × EdgeBucket))
    (srow : List (Domain × ScoredBucket))
    (hkeys : srow.map Prod.fst = R0.map Prod.fst)
    (hnd : (R0.map Prod.fst).Nodup) :
    linksOrderedWrt R0 (sortRow srow) := by
  rw [linksOrderedWrt, List.pairwise_iff_forall_sublist]
  intro p q hpq
  have hperm : sortRow srow ~ srow := List.mergeSort_perm srow scoreLe
  have hndS : srow.Nodup := List.Nodup.of_map Prod.fst (hkeys ▸ hnd)
  have hndO : (sortRow srow).Nodup := hperm.nodup_iff.mpr hndS
  constructor
  · have hs := List.sorted_mergeSort scoreLe_trans scoreLe_total srow
    have := List.pairwise_iff_forall_sublist.mp hs hpq
    exact of_decide_eq_true this
  · intro htie
    have hne : p ≠ q := by
      have h2 : [p, q].Nodup := List.Nodup.sublist hpq hndO
      simp only [List.nodup_cons, List.mem_singleton] at h2
      exact h2.1
    have hpm : p ∈ srow := hperm.subset (hpq.subset (by simp))
    have hqm : q ∈ srow := hperm.subset (hpq.subset (by simp))
    rcases sublist_pair_or hpm hqm hne with h | h
    · have hk : [p.1, q.1] <+ R0.map Prod.fst := by
        have hmap := h.map Prod.fst
        rw [hkeys] at hmap
        simpa using hmap
      exact indexOf_lt_of_pair_sublist hnd hk
    · exfalso
      have hle : scoreLe q p := by
        simp only [scoreLe, decide_eq_true_eq]
        exact le_of_eq htie
      have hqp := List.pair_sublist_mergeSort scoreLe_trans scoreLe_total
        hle h
      exact hne (sublist_pair_antisymm hndO hpq hqp)

theorem rawRow_keys : ∀ (row : List (Domain × EdgeBucket))
    (raws : List (Domain × EdgeBucket × Nat)), rawRow row = some raws →
    raws.map (fun q => q.1) = row.map Prod.fst := by
  intro row
  induction row with
  | nil =>
      intro raws h
      simp only [rawRow, Option.some.injEq] at h
      subst h; rfl
  | cons p rest ih =>
      intro raws h
      rw [rawRow] at h
      cases hs : rawScore p.2 with
      | none => rw [hs] at h; cases h
      | some s =>
          rw [hs] at h
          cases hr : rawRow rest with
          | none => rw [hr] at h; cases h
          | some r =>
              rw [hr] at h
              simp only [Option.some.injEq] at h
              subst h
              simp [ih r hr]

theorem scoreRow_keys (row : List (Domain × EdgeBucket))
    (srow : List (Domain × ScoredBucket)) (h : scoreRow row = some srow) :
    srow.map Prod.fst = row.map Prod.fst := by
  unfold scoreRow at h
  cases hr : rawRow row with
  | none => rw [hr] at h; cases h
  | some raws =>
      rw [hr] at h
      dsimp only at h
      by_cases hm : rowFoldMax raws = 0
      · rw [if_pos hm] at h; cases h
      · rw [if_neg hm] at h
        simp only [Option.some.injEq] at h
        subst h
        rw [List.map_map]
        exact rawRow_keys row raws hr

theorem scoreGraph_findD (L : List (Domain × List (Domain × EdgeBucket)))
    (G : List (Domain × List (Domain × ScoredBucket)))
    (hG : scoreGraph L = some G) (d : Domain) :
    (findD d [] L = [] ∧ findD d [] G = []) ∨
      scoreRow (findD d [] L) = some (findD d [] G) := by
  induction L generalizing G with
  | nil =>
      simp only [scoreGraph, Option.some.injEq] at hG
      subst hG
      exact Or.inl ⟨rfl, rfl⟩
  | cons p rest ih =>
      obtain ⟨pd, prow⟩ := p
      rw [scoreGraph] at hG
      cases hr : scoreRow prow with
      | none => rw [hr] at hG; cases hG
      | some r =>
          rw [hr] at hG
          cases hg : scoreGraph rest with
          | none => rw [hg] at hG; cases hG
          | some g =>
              rw [hg] at hG
              simp only [Option.some.injEq] at hG
              subst hG
              by_cases hpd : pd = d
              · right
                simp only [findD, if_pos hpd]
                exact hr
              · simp only [findD, if_neg hpd]
                exact ih g hg

theorem keys_updateAList {α β : Type _} [DecidableEq α] (k : α) (d : β)
    (f : β → β) (l : List (α × β)) :
    (updateAList k d f l).map Prod.fst =
      if k ∈ l.map Prod.fst then l.map Prod.fst
      else l.map Prod.fst ++ [k] := by
  induction l with
  | nil => simp [updateAList]
  | cons p rest ih =>
      obtain ⟨a, v⟩ := p
      by_cases h : a = k
      · subst h
        simp [updateAList]
      · have hka : ¬ k = a := fun e => h e.symm
        simp only [updateAList, if_neg h, List.map_cons, ih, List.mem_cons,
          hka, false_or]
        by_cases hk : k ∈ rest.map Prod.fst <;> simp [hk]

theorem nodupKeys_updateAList {α β : Type _} [DecidableEq α] (k : α) (d : β)
    (f : β → β) (l : List (α × β)) (h : (l.map Prod.fst).Nodup) :
    ((updateAList k d f l).map Prod.fst).Nodup := by
  rw [keys_updateAList]
  by_cases hk : k ∈ l.map Prod.fst
  · simp [hk, h]
  · simp [hk, List.nodup_append, h, List.disjoint_singleton]

theorem rowKeysNodup_addEvent (st : AggState) (e : LinkEvent)
    (h : ∀ D, ((findD D [] st.links).map Prod.fst).Nodup) :
    ∀ D, ((findD D [] (addEvent st e).links).map Prod.fst).Nodup := by
  intro D
  unfold addEvent
  simp only [findD_updateAList]
  by_cases ht : e.to_domain = D
  · rw [if_pos ht]
    by_cases hf : e.from_domain = D
    · rw [if_pos hf]
      exact nodupKeys_updateAList _ _ _ _
        (nodupKeys_updateAList _ _ _ _ (h D))
    · rw [if_neg hf]
      exact nodupKeys_updateAList _ _ _ _ (h D)
  · rw [if_neg ht]
    by_cases hf : e.from_domain = D
    · rw [if_pos hf]
      exact nodupKeys_updateAList _ _ _ _ (h D)
    · rw [if_neg hf]
      exact h D

theorem rowKeysNodup_load_links (events : List LinkEvent) :
    ∀ D, ((findD D [] (load_links events).links).map Prod.fst).Nodup := by
  suffices h : ∀ st : AggState,
      (∀ D, ((findD D [] st.links).map Prod.fst).Nodup) →
      ∀ D, ((findD D [] (events.foldl addEvent st).links).map Prod.fst).Nodup by
    exact h emptyAgg (by intro D; simp [emptyAgg, findD])
  induction events with
  | nil => intro st h; exact h
  | cons e rest ih =>
      intro st h
      exact ih (addEvent st e) (rowKeysNodup_addEvent st e h)

theorem assembleAll_mem (cfg : Config) (allExtra : Domain → Rec)
    (scored : List (Domain × List (Domain × ScoredBucket)))
    (oc ic : List (Domain × Nat)) :
    ∀ (sites : List Rec) (out : List SiteRec),
      assembleAll cfg allExtra scored oc ic sites = some out →
      ∀ r ∈ out, ∃ s ∈ sites,
        assembleSite cfg allExtra scored oc ic s = some r := by
  intro sites
  induction sites with
  | nil =>
      intro out h r hr
      simp only [assembleAll, Option.some.injEq] at h
      subst h; cases hr
  | cons s rest ih =>
      intro out h r hr
      rw [assembleAll] at h
      cases h1 : assembleSite cfg allExtra scored oc ic s with
      | none => rw [h1] at h; cases h
      | some r1 =>
          rw [h1] at h
          cases h2 : assembleAll cfg allExtra scored oc ic rest with
          | none => rw [h2] at h; cases h
          | some rs =>
              rw [h2] at h
              simp only [Option.some.injEq] at h
              subst h
              rcases List.mem_cons.mp hr with rfl | hr'
              · exact ⟨s, List.mem_cons_self _ _, h1⟩
              · obtain ⟨s', hs', ha⟩ := ih rs h2 r hr'
                exact ⟨s', List.mem_cons_of_mem _ hs', ha⟩

/-- Successful assembly, unfolded: every intermediate step succeeded and the
output record is built from their results exactly as the loop body does. -/
theorem assembleSite_spec (cfg : Config) (allExtra : Domain → Rec)
    (scored : List (Domain × List (Domain × ScoredBucket)))
    (oc ic : List (Domain × Nat)) (site0 : Rec) (r : SiteRec)
    (h : assembleSite cfg allExtra scored oc ic site0 = some r) :
    ∃ domain site1 site2 tags0 rels metas servers serverVals site4 hcard,
      step_extras allExtra site0 = some (domain, site1) ∧
      step_numPages site1 = some site2 ∧
      step_tags0 site2 = some tags0 ∧
      asGenList (findKey "rel_generators" site2) = some rels ∧
      asGenList (findKey "meta_generators" site2) = some metas ∧
      step_servers
        (findKey "servers"
          (eraseKey "meta_generators" (eraseKey "rel_generators" site2)))
        (rels ++ metas) = some servers ∧
      serverIter servers = some serverVals ∧
      step_crawl
          (eraseKey "meta_generators" (eraseKey "rel_generators" site2)) =
        some site4 ∧
      step_hcard site4 = some hcard ∧
      r = { domain := domain, fields := finalFields site4,
            tags := tags0 ++ (inferredTags cfg domain).map .str ++
              (if truthyO (findKey "webmention_endpoints" site2) then
                [JVal.str "webmention"] else []) ++
              (if truthyO (findKey "micropub_endpoints" site2) then
                [JVal.str "micropub"] else []) ++ serverTagList serverVals,
            servers := servers, hcard := hcard,
            links_out := findD domain 0 oc,
            links_in := findD domain 0 ic,
            links := sortRow (findD domain [] scored),
            links_truncated := false } := by
  unfold assembleSite at h
  cases h1 : step_extras allExtra site0 with
  | none => rw [h1] at h; cases h
  | some pr =>
  obtain ⟨domain, site1⟩ := pr
  rw [h1] at h
  dsimp only at h
  cases h2 : step_numPages site1 with
  | none => rw [h2] at h; cases h
  | some site2 =>
  rw [h2] at h
  dsimp only at h
  cases h3 : step_tags0 site2 with
  | none => rw [h3] at h; cases h
  | some tags0 =>
  rw [h3] at h
  dsimp only at h
  cases h4 : asGenList (findKey "rel_generators" site2) with
  | none =>
      cases h5 : asGenList (findKey "meta_generators" site2) with
      | none => rw [h4, h5] at h; cases h
      | some metas => rw [h4, h5] at h; cases h
  | some rels =>
  cases h5 : asGenList (findKey "meta_generators" site2) with
  | none => rw [h4, h5] at h; cases h
  | some metas =>
  rw [h4, h5] at h
  dsimp only at h
  cases h6 : step_servers
      (findKey "servers"
        (eraseKey "meta_generators" (eraseKey "rel_generators" site2)))
      (rels ++ metas) with
  | none => rw [h6] at h; cases h
  | some servers =>
  rw [h6] at h
  dsimp only at h
  cases h7 : serverIter servers with
  | none => rw [h7] at h; cases h
  | some serverVals =>
  rw [h7] at h
  dsimp only at h
  cases h8 : step_crawl
      (eraseKey "meta_generators" (eraseKey "rel_generators" site2)) with
  | none => rw [h8] at h; cases h
  | some site4 =>
  rw [h8] at h
  dsimp only at h
  cases h9 : step_hcard site4 with
  | none => rw [h9] at h; cases h
  | some hcard =>
  rw [h9] at h
  dsimp only at h
  simp only [Option.some.injEq] at h
  exact ⟨domain, site1, site2, tags0, rels, metas, servers, serverVals,
    site4, hcard, rfl, h2, h3, h4, h5, h6, h7, h8, h9, h.symm⟩

theorem make_full_mem (sites : List Rec) (events : List LinkEvent)
    (extras : List (List Rec)) (cfg : Config) (full : List SiteRec)
    (hfull : make_full sites events extras cfg = some full) :
    ∃ scored allExtra,
      scoreGraph (load_links events).links = some scored ∧
      ∀ s ∈ full, ∃ site0 : Rec,
        assembleSite cfg allExtra scored (load_links events).out_counts
          (load_links events).in_counts site0 = some s := by
  unfold make_full at hfull
  dsimp only at hfull
  cases hsg : scoreGraph (load_links events).links with
  | none => rw [hsg] at hfull; cases hfull
  | some scored =>
      rw [hsg] at hfull
      dsimp only at hfull
      cases hce : collectExtras [] extras.flatten with
      | none => rw [hce] at hfull; cases hfull
      | some allExtra =>
          rw [hce] at hfull
          dsimp only at hfull
          cases hgd : getDomains sites with
          | none => rw [hgd] at hfull; cases hfull
          | some siteDoms =>
              rw [hgd] at hfull
              dsimp only at hfull
              refine ⟨scored, fun d => findD d [] allExtra, rfl, ?_⟩
              intro s hs
              obtain ⟨site0, _, ha⟩ :=
                assembleAll_mem cfg _ scored _ _ _ full hfull s hs
              exact ⟨site0, ha⟩

/-- C2: every record of the base view has at most `MAX_BASE_LINKS` link
entries; a record whose full `links` exceeds the cap keeps exactly the
first `MAX_BASE_LINKS` entries (in the existing order) and carries
`links_truncated = true`; otherwise `links` is unchanged and the flag is
absent (the flag is indeed absent from every record `make_full` emits,
second conjunct). -/
theorem C2_base_cap :
    (∀ full : List SiteRec, (∀ s ∈ full, s.links_truncated = false) →
      ∀ i (hi : i < (make_base full).length) (hif : i < full.length),
      (make_base full)[i].links.length ≤ MAX_BASE_LINKS ∧
        (if MAX_BASE_LINKS < full[i].links.length then
          (make_base full)[i].links = full[i].links.take MAX_BASE_LINKS ∧
            (make_base full)[i].links_truncated = true
        else
          (make_base full)[i].links = full[i].links ∧
            (make_base full)[i].links_truncated = false)) ∧
    (∀ (sites : List Rec) (events : List LinkEvent)
        (extras : List (List Rec)) (cfg : Config) (full : List SiteRec),
      make_full sites events extras cfg = some full →
      ∀ s ∈ full, s.links_truncated = false) := by
  constructor
  · intro full hflag i hi hif
    have hm : (make_base full)[i] =
        (if MAX_BASE_LINKS < full[i].links.length then
          { full[i] with
            links := full[i].links.take MAX_BASE_LINKS,
            links_truncated := true }
        else full[i]) := by
      simp [make_base]
    by_cases hc : MAX_BASE_LINKS < full[i].links.length
    · rw [hm, if_pos hc, if_pos hc]
      refine ⟨?_, rfl, rfl⟩
      simp [List.length_take]
    · rw [hm, if_neg hc, if_neg hc]
      exact ⟨by omega, rfl, hflag full[i] (List.getElem_mem hif)⟩
  · intro sites events extras cfg full hfull s hs
    obtain ⟨scored, allExtra, _, hmem⟩ :=
      make_full_mem sites events extras cfg full hfull
    obtain ⟨site0, hassm⟩ := hmem s hs
    obtain ⟨domain, _, _, _, _, _, _, _, _, _, _, _, _, _, _, _, _, _, _,
      hr⟩ := assembleSite_spec cfg allExtra scored _ _ site0 s hassm
    rw [hr]

theorem C2_base_cap_witness :
    ((make_base [wRec]).get ⟨0, by simp [make_base]⟩).links.length ≤
      MAX_BASE_LINKS :=
  (C2_base_cap.1 [wRec]
    (by intro s hs; rw [List.mem_singleton] at hs; subst hs; rfl)
    0 (by simp [make_base]) (by simp)).1

/-- C6: in every output record of each of the three views, the `links`
mapping is ordered by descending normalized score, and entries with equal
normalized score appear in the order in which the target domain was first
observed during aggregation (its position in the domain's aggregated
row). -/
theorem C6_links_sorted (sites : List Rec) (events : List LinkEvent)
    (extras : List (List Rec)) (cfg : Config) (full : List SiteRec)
    (hfull : make_full sites events extras cfg = some full)
    (domains : List Domain) :
    (∀ s ∈ full,
        linksOrderedWrt (findD s.domain [] (load_links events).links)
          s.links) ∧
      (∀ s ∈ make_base full,
        linksOrderedWrt (findD s.domain [] (load_links events).links)
          s.links) ∧
      (∀ s ∈ make_internal full domains,
        linksOrderedWrt (findD s.domain [] (load_links events).links)
          s.links) := by
  obtain ⟨scored, allExtra, hsg, hmem⟩ :=
    make_full_mem sites events extras cfg full hfull
  have hfullP : ∀ s ∈ full,
      linksOrderedWrt (findD s.domain [] (load_links events).links)
        s.links := by
    intro s hs
    obtain ⟨site0, hassm⟩ := hmem s hs
    obtain ⟨domain, site1, site2, tags0, rels, metas, servers, serverVals,
      site4, hcard, _, _, _, _, _, _, _, _, _, hr⟩ :=
      assembleSite_spec cfg allExtra scored _ _ site0 s hassm
    subst hr
    show linksOrderedWrt (findD domain [] (load_links events).links)
      (sortRow (findD domain [] scored))
    rcases scoreGraph_findD _ scored hsg domain with ⟨hl, hg⟩ | hsr
    · rw [hg]
      have hnil : sortRow ([] : List (Domain × ScoredBucket)) = [] := by
        simp [sortRow]
      rw [hnil, linksOrderedWrt]
      exact List.Pairwise.nil
    · exact sortRow_ordered _ _ (scoreRow_keys _ _ hsr)
        (rowKeysNodup_load_links events domain)
  refine ⟨hfullP, ?_, ?_⟩
  · intro s hs
    rcases List.mem_map.mp hs with ⟨t, ht, rfl⟩
    have hP := hfullP t ht
    by_cases hc : MAX_BASE_LINKS < t.links.length
    · rw [if_pos hc]
      exact List.Pairwise.sublist (List.take_sublist _ _) hP
    · rw [if_neg hc]
      exact hP
  · intro s hs
    rcases List.mem_map.mp hs with ⟨t, htf, rfl⟩
    have ht := (List.mem_filter.mp htf).1
    exact List.Pairwise.sublist (List.filter_sublist _) (hfullP t ht)

def cfg0 : Config := ⟨[]⟩

def wSites : List Rec := [[("domain", JVal.str "a.com")]]

noncomputable def wFullRec : SiteRec :=
  { domain := "a.com", fields := [], tags := [], servers := none,
    hcard := .obj [], links_out := 3, links_in := 0,
    links := sortRow wSrowA, links_truncated := false }

theorem make_full_wSites :
    make_full wSites wEvents [] cfg0 = some [wFullRec] := by
  have h1 : make_full wSites wEvents [] cfg0 =
      assembleAll cfg0 (fun d => findD d [] []) wG
        (load_links wEvents).out_counts (load_links wEvents).in_counts
        (wSites ++
          ((([] : List String).mergeSort (fun a b => decide (a ≤ b))).map
            (fun d => [("domain", JVal.str d)]))) := rfl
  rw [h1, List.mergeSort_nil]
  rfl

theorem C6_links_sorted_witness :
    linksOrderedWrt (findD "a.com" [] (load_links wEvents).links)
      wFullRec.links :=
  (C6_links_sorted wSites wEvents [] cfg0 [wFullRec] make_full_wSites
    ["a.com"]).1 wFullRec (List.mem_singleton.mpr rfl)

/-! ## Dict-lookup frame lemmas for the assembly steps -/

theorem findKey_eraseKey (k k' : String) (r : Rec) :
    findKey k (eraseKey k' r) = if k = k' then none else findKey k r := by
  induction r with
  | nil => by_cases h : k = k' <;> simp [eraseKey, findKey, h]
  | cons p rest ih =>
      obtain ⟨a, v⟩ := p
      by_cases hak : a = k'
      · subst hak
        by_cases h : k = a
        · subst h
          simp only [eraseKey, List.filter_cons, bne_self_eq_false,
            Bool.false_eq_true, if_neg, reduceIte, if_pos rfl]
          simpa [eraseKey] using ih
        · have : ¬ a = k := fun e => h e.symm
          simp only [eraseKey, List.filter_cons, bne_self_eq_false,
            Bool.false_eq_true, reduceIte, findKey, if_neg this, if_neg h]
          simpa [eraseKey, if_neg h] using ih
      · have hne : (a != k') = true := bne_iff_ne.mpr hak
        by_cases h : a = k
        · subst h
          simp [eraseKey, List.filter_cons, hne, findKey, hak]
        · simp only [eraseKey, List.filter_cons, hne, reduceIte, findKey,
            if_neg h]
          simpa [eraseKey] using ih

theorem findKey_setKey (k k' : String) (v : JVal) (r : Rec) :
    findKey k (setKey k' v r) = if k' = k then some v else findKey k r := by
  induction r with
  | nil => by_cases h : k' = k <;> simp [setKey, updateAList, findKey, h]
  | cons p rest ih =>
      obtain ⟨a, w⟩ := p
      by_cases hak : a = k'
      · subst hak
        by_cases h : a = k
        · subst h
          simp [setKey, updateAList, findKey]
        · simp [setKey, updateAList, findKey, h]
      · by_cases h : a = k
        · subst h
          have hk'a : ¬ k' = a := fun e => hak e.symm
          simp [setKey, updateAList, hak, findKey, hk'a]
        · simp only [setKey, updateAList, if_neg hak, findKey, if_neg h]
          exact ih

theorem step_numPages_frame (site site' : Rec)
    (h : step_numPages site = some site') (k : String)
    (hk : ¬ k = "num_pages") : findKey k site' = findKey k site := by
  unfold step_numPages at h
  cases hnp : findKey "num_pages" site with
  | none =>
      rw [hnp] at h
      cases h
      rfl
  | some v =>
      rw [hnp] at h
      dsimp only at h
      by_cases ht : truthy v
      · rw [if_pos ht] at h
        cases hp : pyInt v with
        | none => rw [hp] at h; cases h
        | some n =>
            rw [hp] at h
            cases h
            rw [findKey_setKey, if_neg (fun e => hk e.symm)]
      · rw [if_neg ht] at h
        cases h
        rfl

theorem step_crawl_frame (site site' : Rec)
    (h : step_crawl site = some site') (k : String)
    (h1 : ¬ k = "crawl_start") (h2 : ¬ k = "crawl_end")
    (h3 : ¬ k = "fetch_time") : findKey k site' = findKey k site := by
  unfold step_crawl at h
  dsimp only at h
  have herase : findKey k (eraseKey "fetch_time" site) = findKey k site := by
    rw [findKey_eraseKey, if_neg h3]
  by_cases hc : (truthyO (findKey "crawl_start" (eraseKey "fetch_time" site))
      && truthyO (findKey "crawl_end" (eraseKey "fetch_time" site))) = true
  · rw [if_pos hc] at h
    cases hs : findKey "crawl_start" (eraseKey "fetch_time" site) with
    | none => rw [hs] at h; cases h
    | some sv =>
        rw [hs] at h
        cases he : findKey "crawl_end" (eraseKey "fetch_time" site) with
        | none => rw [he] at h; cases h
        | some ev =>
            rw [he] at h
            dsimp only at h
            cases hpi : pyInt sv with
            | none => rw [hpi] at h; cases h
            | some si =>
                rw [hpi] at h
                cases hpe : pyInt ev with
                | none => rw [hpe] at h; cases h
                | some ei =>
                    rw [hpe] at h
                    cases h
                    rw [findKey_setKey, findKey_setKey,
                      if_neg (fun e => h2 e.symm),
                      if_neg (fun e => h1 e.symm)]
                    exact herase
  · rw [if_neg hc] at h
    cases hf : findKey "fetch_time" site with
    | none =>
        rw [hf] at h
        cases h
        exact herase
    | some fv =>
        rw [hf] at h
        dsimp only at h
        by_cases htf : truthy fv
        · rw [if_pos htf] at h
          cases h
          rw [findKey_setKey, findKey_setKey,
            if_neg (fun e => h2 e.symm), if_neg (fun e => h1 e.symm)]
          exact herase
        · rw [if_neg htf] at h
          cases h
          exact herase

theorem step_crawl_fetch_removed (site site' : Rec)
    (h : step_crawl site = some site') :
    findKey "fetch_time" site' = none := by
  unfold step_crawl at h
  dsimp only at h
  have herase : findKey "fetch_time" (eraseKey "fetch_time" site) = none := by
    rw [findKey_eraseKey, if_pos rfl]
  by_cases hc : (truthyO (findKey "crawl_start" (eraseKey "fetch_time" site))
      && truthyO (findKey "crawl_end" (eraseKey "fetch_time" site))) = true
  · rw [if_pos hc] at h
    cases hs : findKey "crawl_start" (eraseKey "fetch_time" site) with
    | none => rw [hs] at h; cases h
    | some sv =>
        rw [hs] at h
        cases he : findKey "crawl_end" (eraseKey "fetch_time" site) with
        | none => rw [he] at h; cases h
        | some ev =>
            rw [he] at h
            dsimp only at h
            cases hpi : pyInt sv with
            | none => rw [hpi] at h; cases h
            | some si =>
                rw [hpi] at h
                cases hpe : pyInt ev with
                | none => rw [hpe] at h; cases h
                | some ei =>
                    rw [hpe] at h
                    cases h
                    rw [findKey_setKey, findKey_setKey]
                    simp [herase]
  · rw [if_neg hc] at h
    cases hf : findKey "fetch_time" site with
    | none =>
        rw [hf] at h
        cases h
        exact herase
    | some fv =>
        rw [hf] at h
        dsimp only at h
        by_cases htf : truthy fv
        · rw [if_pos htf] at h
          cases h
          rw [findKey_setKey, findKey_setKey]
          simp [herase]
        · rw [if_neg htf] at h
          cases h
          exact herase

theorem finalFields_frame (site : Rec) (k : String)
    (h1 : ¬ k = "domain") (h2 : ¬ k = "tags") (h3 : ¬ k = "servers")
    (h4 : ¬ k = "hcard") (h5 : ¬ k = "links_out") (h6 : ¬ k = "links_in")
    (h7 : ¬ k = "links") :
    findKey k (finalFields site) = findKey k site := by
  unfold finalFields
  rw [findKey_eraseKey, if_neg h1, findKey_eraseKey, if_neg h2,
    findKey_eraseKey, if_neg h3, findKey_eraseKey, if_neg h4,
    findKey_eraseKey, if_neg h5, findKey_eraseKey, if_neg h6,
    findKey_eraseKey, if_neg h7]

/-- Behaviour of the crawl-times block on the two crawl keys. -/
theorem step_crawl_spec (site site' : Rec)
    (h : step_crawl site = some site') :
    (∀ sv ev, findKey "crawl_start" site = some sv → truthy sv →
      findKey "crawl_end" site = some ev → truthy ev →
      ∃ si ei, pyInt sv = some si ∧ pyInt ev = some ei ∧
        findKey "crawl_start" site' = some (.str (epochToISO si)) ∧
        findKey "crawl_end" site' = some (.str (epochToISO ei))) ∧
    (¬ (truthyO (findKey "crawl_start" site) = true ∧
        truthyO (findKey "crawl_end" site) = true) →
      (∀ fv, findKey "fetch_time" site = some fv → truthy fv →
        findKey "crawl_start" site' = some fv ∧
        findKey "crawl_end" site' = some fv) ∧
      (truthyO (findKey "fetch_time" site) = false →
        findKey "crawl_start" site' = findKey "crawl_start" site ∧
        findKey "crawl_end" site' = findKey "crawl_end" site)) := by
  have hcs : findKey "crawl_start" (eraseKey "fetch_time" site) =
      findKey "crawl_start" site := by
    rw [findKey_eraseKey, if_neg (by decide)]
  have hce : findKey "crawl_end" (eraseKey "fetch_time" site) =
      findKey "crawl_end" site := by
    rw [findKey_eraseKey, if_neg (by decide)]
  unfold step_crawl at h
  dsimp only at h
  rw [hcs, hce] at h
  by_cases hc : (truthyO (findKey "crawl_start" site) &&
      truthyO (findKey "crawl_end" site)) = true
  · rw [if_pos hc] at h
    have hc' : truthyO (findKey "crawl_start" site) = true ∧
        truthyO (findKey "crawl_end" site) = true := by
      simpa [Bool.and_eq_true] using hc
    cases hs : findKey "crawl_start" site with
    | none => rw [hs] at h; cases h
    | some sv =>
        rw [hs] at h
        cases he : findKey "crawl_end" site with
        | none => rw [he] at h; cases h
        | some ev =>
            rw [he] at h
            dsimp only at h
            cases hpi : pyInt sv with
            | none => rw [hpi] at h; cases h
            | some si =>
                rw [hpi] at h
                cases hpe : pyInt ev with
                | none => rw [hpe] at h; cases h
                | some ei =>
                    rw [hpe] at h
                    cases h
                    constructor
                    · intro sv' ev' hsv' _ hev' _
                      have h1 : sv' = sv := (Option.some.inj hsv').symm
                      have h2 : ev' = ev := (Option.some.inj hev').symm
                      subst h1; subst h2
                      refine ⟨si, ei, hpi, hpe, ?_, ?_⟩
                      · rw [findKey_setKey, if_neg (by decide),
                          findKey_setKey, if_pos rfl]
                      · rw [findKey_setKey, if_pos rfl]
                    · intro hneg
                      exact absurd ⟨by rw [← hs]; exact hc'.1,
                        by rw [← he]; exact hc'.2⟩ hneg
  · rw [if_neg hc] at h
    have hc' : ¬ (truthyO (findKey "crawl_start" site) = true ∧
        truthyO (findKey "crawl_end" site) = true) := by
      intro hx
      exact hc (by simp [Bool.and_eq_true, hx.1, hx.2])
    cases hf : findKey "fetch_time" site with
    | none =>
        rw [hf] at h
        cases h
        refine ⟨?_, ?_⟩
        · intro sv ev hsv htv hev htev
          exfalso
          exact hc' ⟨by simp [truthyO, hsv, htv], by simp [truthyO, hev, htev]⟩
        · intro _
          refine ⟨?_, fun _ => ⟨hcs, hce⟩⟩
          intro fv hfv
          exact Option.noConfusion hfv
    | some fv =>
        rw [hf] at h
        dsimp only at h
        by_cases htf : truthy fv
        · rw [if_pos htf] at h
          cases h
          refine ⟨?_, ?_⟩
          · intro sv ev hsv htv hev htev
            exfalso
            exact hc' ⟨by simp [truthyO, hsv, htv],
              by simp [truthyO, hev, htev]⟩
          · intro _
            refine ⟨?_, ?_⟩
            · intro fv' hfv' _
              have hffv : fv' = fv := (Option.some.inj hfv').symm
              subst hffv
              constructor
              · rw [findKey_setKey, if_neg (by decide),
                  findKey_setKey, if_pos rfl]
              · rw [findKey_setKey, if_pos rfl]
            · intro hft
              simp [truthyO, htf] at hft
        · rw [if_neg htf] at h
          cases h
          refine ⟨?_, ?_⟩
          · intro sv ev hsv htv hev htev
            exfalso
            exact hc' ⟨by simp [truthyO, hsv, htv],
              by simp [truthyO, hev, htev]⟩
          · intro _
            refine ⟨?_, fun _ => ⟨hcs, hce⟩⟩
            intro fv' hfv' htf'
            have hffv : fv' = fv := (Option.some.inj hfv').symm
            subst hffv
            exact absurd htf' htf

/-- The working dict just before the crawl-times block: `site` after the
extras merge, the `mf2`/`html` pops, the `num_pages` coercion and the
generator pops. -/
def preCrawlDict (allExtra : Domain → Rec) (site0 : Rec) : Option Rec :=
  match step_extras allExtra site0 with
  | none => none
  | some (_, site1) =>
      match step_numPages site1 with
      | none => none
      | some site2 =>
          some (eraseKey "meta_generators" (eraseKey "rel_generators" site2))

theorem assembleSite_crawlParts (cfg : Config) (allExtra : Domain → Rec)
    (scored : List (Domain × List (Domain × ScoredBucket)))
    (oc ic : List (Domain × Nat)) (site0 : Rec) (r : SiteRec)
    (h : assembleSite cfg allExtra scored oc ic site0 = some r) :
    ∃ site3 site4, preCrawlDict allExtra site0 = some site3 ∧
      step_crawl site3 = some site4 ∧ r.fields = finalFields site4 := by
  obtain ⟨domain, site1, site2, tags0, rels, metas, servers, serverVals,
    site4, hcard, h1, h2, h3, h4, h5, h6, h7, h8, h9, hr⟩ :=
    assembleSite_spec cfg allExtra scored oc ic site0 r h
  refine ⟨_, site4, ?_, h8, by rw [hr]⟩
  unfold preCrawlDict
  rw [h1]
  dsimp only
  rw [h2]

/-- C7 (amended): `fetch_time` is popped; if `crawl_start` and `crawl_end`
are both present with truthy values (epoch values accepted by `int()`),
each is converted in the output to an ISO-8601 UTC timestamp at second
precision; otherwise, if `fetch_time` is present and truthy, its raw value
is used for both output fields; otherwise the two fields are left exactly
as they were in the working dict (in particular a present-but-unpaired or
falsy value is passed through, not removed). -/
theorem C7_crawl_times (cfg : Config) (allExtra : Domain → Rec)
    (scored : List (Domain × List (Domain × ScoredBucket)))
    (oc ic : List (Domain × Nat)) (site0 : Rec) (r : SiteRec)
    (h : assembleSite cfg allExtra scored oc ic site0 = some r) :
    ∃ site3, preCrawlDict allExtra site0 = some site3 ∧
      (∀ sv ev, findKey "crawl_start" site3 = some sv → truthy sv →
        findKey "crawl_end" site3 = some ev → truthy ev →
        ∃ si ei, pyInt sv = some si ∧ pyInt ev = some ei ∧
          findKey "crawl_start" r.fields = some (.str (epochToISO si)) ∧
          findKey "crawl_end" r.fields = some (.str (epochToISO ei))) ∧
      (¬ (truthyO (findKey "crawl_start" site3) = true ∧
          truthyO (findKey "crawl_end" site3) = true) →
        (∀ fv, findKey "fetch_time" site3 = some fv → truthy fv →
          findKey "crawl_start" r.fields = some fv ∧
          findKey "crawl_end" r.fields = some fv) ∧
        (truthyO (findKey "fetch_time" site3) = false →
          findKey "crawl_start" r.fields = findKey "crawl_start" site3 ∧
          findKey "crawl_end" r.fields = findKey "crawl_end" site3)) := by
  obtain ⟨site3, site4, h3, h8, hfld⟩ :=
    assembleSite_crawlParts cfg allExtra scored oc ic site0 r h
  have hfr1 : findKey "crawl_start" r.fields =
      findKey "crawl_start" site4 := by
    rw [hfld]
    exact finalFields_frame site4 _ (by decide) (by decide) (by decide)
      (by decide) (by decide) (by decide) (by decide)
  have hfr2 : findKey "crawl_end" r.fields = findKey "crawl_end" site4 := by
    rw [hfld]
    exact finalFields_frame site4 _ (by decide) (by decide) (by decide)
      (by decide) (by decide) (by decide) (by decide)
  obtain ⟨hconv, helse⟩ := step_crawl_spec site3 site4 h8
  refine ⟨site3, h3, ?_, ?_⟩
  · intro sv ev h1 h2 h3' h4'
    obtain ⟨si, ei, hsi, hei, hc1, hc2⟩ := hconv sv ev h1 h2 h3' h4'
    exact ⟨si, ei, hsi, hei, by rw [hfr1]; exact hc1,
      by rw [hfr2]; exact hc2⟩
  · intro hneg
    obtain ⟨hfetch, hnone⟩ := helse hneg
    refine ⟨?_, ?_⟩
    · intro fv hfv htv
      obtain ⟨a, b⟩ := hfetch fv hfv htv
      exact ⟨by rw [hfr1]; exact a, by rw [hfr2]; exact b⟩
    · intro hft
      obtain ⟨a, b⟩ := hnone hft
      exact ⟨by rw [hfr1]; exact a, by rw [hfr2]; exact b⟩

/-- Input with `crawl_start` only (no `crawl_end`, no `fetch_time`). -/
def xC7Site : Rec :=
  [("domain", JVal.str "a.com"), ("crawl_start", JVal.num 5)]

noncomputable def xC7Rec : SiteRec :=
  { domain := "a.com", fields := [("crawl_start", JVal.num 5)], tags := [],
    servers := none, hcard := .obj [], links_out := 0, links_in := 0,
    links := sortRow [], links_truncated := false }

theorem C7_counterexample :
    assembleSite cfg0 (fun _ => []) [] [] [] xC7Site = some xC7Rec ∧
      ¬ findKey "crawl_start" xC7Rec.fields = none :=
  ⟨rfl, fun hx => Option.noConfusion hx⟩

def wC7Site : Rec :=
  [("domain", JVal.str "a.com"), ("crawl_start", JVal.num 86400),
   ("crawl_end", JVal.num 90061)]

noncomputable def wC7Rec : SiteRec :=
  { domain := "a.com",
    fields := [("crawl_start", JVal.str (epochToISO 86400)),
               ("crawl_end", JVal.str (epochToISO 90061))],
    tags := [], servers := none, hcard := .obj [], links_out := 0,
    links_in := 0, links := sortRow [], links_truncated := false }

theorem C7_crawl_times_witness :
    findKey "crawl_start" wC7Rec.fields =
        some (.str "1970-01-02T00:00:00") ∧
      findKey "crawl_end" wC7Rec.fields =
        some (.str "1970-01-02T01:01:01") := by
  obtain ⟨site3, h3, hconv, _⟩ :=
    C7_crawl_times cfg0 (fun _ => []) [] [] [] wC7Site wC7Rec rfl
  have hs3 : site3 = wC7Site := Option.some.inj (h3.symm.trans (by rfl))
  subst hs3
  obtain ⟨si, ei, hsi, hei, h1, h2⟩ :=
    hconv (JVal.num 86400) (JVal.num 90061) rfl rfl rfl rfl
  have hsi' : (86400 : Int) = si := Option.some.inj hsi
  have hei' : (90061 : Int) = ei := Option.some.inj hei
  subst hsi'; subst hei'
  rw [h1, h2]
  exact ⟨rfl, rfl⟩

/-- The working dict right before the final `site.update(...)`:
after extras, pops, `num_pages`, the generator pops and the crawl block. -/
def postCrawlDict (allExtra : Domain → Rec) (site0 : Rec) : Option Rec :=
  match preCrawlDict allExtra site0 with
  | none => none
  | some site3 => step_crawl site3

theorem assembleSite_hcardParts (cfg : Config) (allExtra : Domain → Rec)
    (scored : List (Domain × List (Domain × ScoredBucket)))
    (oc ic : List (Domain × Nat)) (site0 : Rec) (r : SiteRec)
    (h : assembleSite cfg allExtra scored oc ic site0 = some r) :
    ∃ site4, postCrawlDict allExtra site0 = some site4 ∧
      step_hcard site4 = some r.hcard := by
  obtain ⟨domain, site1, site2, tags0, rels, metas, servers, serverVals,
    site4, hcard, h1, h2, h3, h4, h5, h6, h7, h8, h9, hr⟩ :=
    assembleSite_spec cfg allExtra scored oc ic site0 r h
  refine ⟨site4, ?_, ?_⟩
  · unfold postCrawlDict preCrawlDict
    rw [h1]
    dsimp only
    rw [h2]
    dsimp only
    exact h8
  · rw [hr]
    exact h9

/-- C8 (amended): an absent `hcard` yields the empty object, and a present
JSON-string `hcard` that parses yields the parsed object (the empty object
when the parse result is falsy) — but a malformed JSON string is NOT
recoverable: `json.loads` raises uncaught and the run aborts. -/
theorem C8_hcard (cfg : Config) (allExtra : Domain → Rec)
    (scored : List (Domain × List (Domain × ScoredBucket)))
    (oc ic : List (Domain × Nat)) (site0 : Rec) :
    (∀ r site4, assembleSite cfg allExtra scored oc ic site0 = some r →
      postCrawlDict allExtra site0 = some site4 →
      (findKey "hcard" site4 = none → r.hcard = .obj []) ∧
      (∀ s v, findKey "hcard" site4 = some (.str s) →
        jsonParse s = some v →
        r.hcard = (if truthy v then v else .obj []))) ∧
    (∀ site4 s, postCrawlDict allExtra site0 = some site4 →
      findKey "hcard" site4 = some (.str s) → jsonParse s = none →
      assembleSite cfg allExtra scored oc ic site0 = none) := by
  constructor
  · intro r site4 h hpost
    obtain ⟨site4', hpost', hstep⟩ :=
      assembleSite_hcardParts cfg allExtra scored oc ic site0 r h
    have h44 : site4' = site4 := Option.some.inj (hpost'.symm.trans hpost)
    subst h44
    constructor
    · intro hk
      unfold step_hcard at hstep
      rw [hk] at hstep
      exact (Option.some.inj hstep).symm
    · intro s v hk hjp
      unfold step_hcard at hstep
      rw [hk] at hstep
      dsimp only at hstep
      rw [hjp] at hstep
      exact (Option.some.inj hstep).symm
  · intro site4 s hpost hk hjp
    cases hA : assembleSite cfg allExtra scored oc ic site0 with
    | none => rfl
    | some r =>
        exfalso
        obtain ⟨site4', hpost', hstep⟩ :=
          assembleSite_hcardParts cfg allExtra scored oc ic site0 r hA
        have h44 : site4' = site4 :=
          Option.some.inj (hpost'.symm.trans hpost)
        subst h44
        unfold step_hcard at hstep
        rw [hk] at hstep
        dsimp only at hstep
        rw [hjp] at hstep
        exact Option.noConfusion hstep

/-- A malformed `hcard` JSON string: the run aborts rather than recovering
with an empty object. -/
theorem C8_counterexample :
    jsonParse "\x7b" = none ∧
      assembleSite cfg0 (fun _ => []) [] [] []
        [("domain", JVal.str "a.com"), ("hcard", JVal.str "\x7b")] =
        none :=
  ⟨rfl, rfl⟩

noncomputable def wC8Rec : SiteRec :=
  { domain := "a.com", fields := [], tags := [], servers := none,
    hcard := .obj [], links_out := 0, links_in := 0, links := sortRow [],
    links_truncated := false }

theorem C8_hcard_witness : wC8Rec.hcard = JVal.obj [] :=
  ((C8_hcard cfg0 (fun _ => []) [] [] [] [("domain", JVal.str "a.com")]).1
    wC8Rec [("domain", JVal.str "a.com")] rfl rfl).1 rfl

/-- The working dict after the extras merge and the `mf2`/`html` pops. -/
def postExtrasDict (allExtra : Domain → Rec) (site0 : Rec) : Option Rec :=
  match step_extras allExtra site0 with
  | none => none
  | some (_, site1) => some site1

theorem assembleSite_numPages_value (cfg : Config) (allExtra : Domain → Rec)
    (scored : List (Domain × List (Domain × ScoredBucket)))
    (oc ic : List (Domain × Nat)) (site0 : Rec) (r : SiteRec)
    (h : assembleSite cfg allExtra scored oc ic site0 = some r) :
    ∃ site1 site2, postExtrasDict allExtra site0 = some site1 ∧
      step_numPages site1 = some site2 ∧
      findKey "num_pages" r.fields = findKey "num_pages" site2 := by
  obtain ⟨domain, site1, site2, tags0, rels, metas, servers, serverVals,
    site4, hcard, h1, h2, h3, h4, h5, h6, h7, h8, h9, hr⟩ :=
    assembleSite_spec cfg allExtra scored oc ic site0 r h
  refine ⟨site1, site2, ?_, h2, ?_⟩
  · unfold postExtrasDict
    rw [h1]
  · have hfr : findKey "num_pages" r.fields =
        findKey "num_pages" site4 := by
      rw [hr]
      exact finalFields_frame site4 _ (by decide) (by decide) (by decide)
        (by decide) (by decide) (by decide) (by decide)
    rw [hfr,
      step_crawl_frame _ _ h8 _ (by decide) (by decide) (by decide),
      findKey_eraseKey, if_neg (by decide),
      findKey_eraseKey, if_neg (by decide)]

/-- C9 (amended): a present truthy `num_pages` that parses as an integer is
coerced to that integer in the output; a present falsy value is passed
through unchanged; but a truthy value that `int()` cannot parse raises
uncaught and the run aborts (it is not passed through). -/
theorem C9_num_pages (cfg : Config) (allExtra : Domain → Rec)
    (scored : List (Domain × List (Domain × ScoredBucket)))
    (oc ic : List (Domain × Nat)) (site0 : Rec) :
    (∀ r site1, assembleSite cfg allExtra scored oc ic site0 = some r →
      postExtrasDict allExtra site0 = some site1 →
      (∀ v n, findKey "num_pages" site1 = some v → truthy v →
        pyInt v = some n →
        findKey "num_pages" r.fields = some (.num n)) ∧
      (∀ v, findKey "num_pages" site1 = some v → truthy v = false →
        findKey "num_pages" r.fields = some v)) ∧
    (∀ site1 v, postExtrasDict allExtra site0 = some site1 →
      findKey "num_pages" site1 = some v → truthy v → pyInt v = none →
      assembleSite cfg allExtra scored oc ic site0 = none) := by
  constructor
  · intro r site1 h hpost
    obtain ⟨site1', site2, hpost', hstep, hval⟩ :=
      assembleSite_numPages_value cfg allExtra scored oc ic site0 r h
    have h11 : site1' = site1 := Option.some.inj (hpost'.symm.trans hpost)
    subst h11
    constructor
    · intro v n hk htv hpv
      unfold step_numPages at hstep
      rw [hk] at hstep
      dsimp only at hstep
      rw [if_pos htv, hpv] at hstep
      have h22 := Option.some.inj hstep
      rw [hval, ← h22, findKey_setKey, if_pos rfl]
    · intro v hk htv
      unfold step_numPages at hstep
      rw [hk] at hstep
      dsimp only at hstep
      rw [if_neg (by simp [htv])] at hstep
      have h22 := Option.some.inj hstep
      rw [hval, ← h22]
      exact hk
  · intro site1 v hpost hk htv hpv
    cases hA : assembleSite cfg allExtra scored oc ic site0 with
    | none => rfl
    | some r =>
        exfalso
        obtain ⟨site1', site2, hpost', hstep, _⟩ :=
          assembleSite_numPages_value cfg allExtra scored oc ic site0 r hA
        have h11 : site1' = site1 :=
          Option.some.inj (hpost'.symm.trans hpost)
        subst h11
        unfold step_numPages at hstep
        rw [hk] at hstep
        dsimp only at hstep
        rw [if_pos htv, hpv] at hstep
        exact Option.noConfusion hstep

/-- A truthy, unparsable `num_pages`: the run aborts instead of passing the
value through. -/
theorem C9_counterexample :
    pyInt (JVal.str "x") = none ∧
      assembleSite cfg0 (fun _ => []) [] [] []
        [("domain", JVal.str "a.com"), ("num_pages", JVal.str "x")] =
        none :=
  ⟨rfl, rfl⟩

def wC9Site : Rec :=
  [("domain", JVal.str "a.com"), ("num_pages", JVal.str "12")]

noncomputable def wC9Rec : SiteRec :=
  { domain := "a.com", fields := [("num_pages", JVal.num 12)], tags := [],
    servers := none, hcard := .obj [], links_out := 0, links_in := 0,
    links := sortRow [], links_truncated := false }

theorem C9_num_pages_witness :
    findKey "num_pages" wC9Rec.fields = some (JVal.num 12) :=
  ((C9_num_pages cfg0 (fun _ => []) [] [] [] wC9Site).1 wC9Rec wC9Site
    rfl rfl).1 (JVal.str "12") 12 rfl rfl rfl

/-- The dict keys the assembly reads, rewrites, pops, or supersedes.
Every other key is pure passthrough. -/
def HANDLED_KEYS : List String :=
  ["domain", "mf2", "html", "num_pages", "tags", "servers",
   "rel_generators", "meta_generators", "fetch_time", "crawl_start",
   "crawl_end", "hcard", "links_out", "links_in", "links"]

/-- C10: `fetch_time` is popped unconditionally, so it is absent from every
output record (hence from all three views, whose derivations do not touch
`fields`), even when `crawl_start`/`crawl_end` are both present and its
value is unused; every input field outside the specially-handled key set is
carried through unchanged from the extras-merged input dict. -/
theorem C10_fetch_time_removed (cfg : Config) (allExtra : Domain → Rec)
    (scored : List (Domain × List (Domain × ScoredBucket)))
    (oc ic : List (Domain × Nat)) (site0 : Rec) :
    (∀ r, assembleSite cfg allExtra scored oc ic site0 = some r →
      findKey "fetch_time" r.fields = none ∧
      ∀ k, ¬ k ∈ HANDLED_KEYS →
        findKey k r.fields =
          findKey k (dictUpdate site0 (allExtra r.domain))) ∧
    (∀ full : List SiteRec, ∀ s ∈ make_base full,
      ∃ t ∈ full, s.fields = t.fields) ∧
    (∀ (full : List SiteRec) (domains : List Domain),
      ∀ s ∈ make_internal full domains, ∃ t ∈ full, s.fields = t.fields) := by
  refine ⟨?_, ?_, ?_⟩
  · intro r h
    obtain ⟨domain, site1, site2, tags0, rels, metas, servers, serverVals,
      site4, hcard, h1, h2, h3, h4, h5, h6, h7, h8, h9, hr⟩ :=
      assembleSite_spec cfg allExtra scored oc ic site0 r h
    have hse := h1
    unfold step_extras at hse
    cases hd : getDomain site0 with
    | none => rw [hd] at hse; cases hse
    | some d =>
        rw [hd] at hse
        dsimp only at hse
        have hpair := Option.some.inj hse
        injection hpair with hd1 hs1
        subst hr
        constructor
        · show findKey "fetch_time" (finalFields site4) = none
          rw [finalFields_frame site4 _ (by decide) (by decide) (by decide)
            (by decide) (by decide) (by decide) (by decide)]
          exact step_crawl_fetch_removed _ _ h8
        · intro k hk
          simp only [HANDLED_KEYS, List.mem_cons, List.not_mem_nil,
            or_false, not_or] at hk
          obtain ⟨hk1, hk2, hk3, hk4, hk5, hk6, hk7, hk8, hk9, hk10,
            hk11, hk12, hk13, hk14, hk15⟩ := hk
          show findKey k (finalFields site4) =
            findKey k (dictUpdate site0 (allExtra domain))
          rw [finalFields_frame site4 k hk1 hk5 hk6 hk12 hk13 hk14 hk15,
            step_crawl_frame _ _ h8 k hk10 hk11 hk9,
            findKey_eraseKey, if_neg hk8, findKey_eraseKey, if_neg hk7,
            step_numPages_frame _ _ h2 k hk4,
            ← hs1,
            findKey_eraseKey, if_neg hk3, findKey_eraseKey, if_neg hk2,
            hd1]
  · intro full s hs
    rcases List.mem_map.mp hs with ⟨t, ht, rfl⟩
    refine ⟨t, ht, ?_⟩
    by_cases hc : MAX_BASE_LINKS < t.links.length
    · rw [if_pos hc]
    · rw [if_neg hc]
  · intro full domains s hs
    rcases List.mem_map.mp hs with ⟨t, htf, rfl⟩
    exact ⟨t, (List.mem_filter.mp htf).1, rfl⟩

def wC10Site : Rec :=
  [("domain", JVal.str "a.com"), ("color", JVal.str "red")]

noncomputable def wC10Rec : SiteRec :=
  { domain := "a.com", fields := [("color", JVal.str "red")], tags := [],
    servers := none, hcard := .obj [], links_out := 0, links_in := 0,
    links := sortRow [], links_truncated := false }

theorem C10_fetch_time_removed_witness :
    findKey "fetch_time" wC10Rec.fields = none ∧
      findKey "color" wC10Rec.fields =
        findKey "color"
          (dictUpdate wC10Site ((fun _ => ([] : Rec)) wC10Rec.domain)) := by
  have h := (C10_fetch_time_removed cfg0 (fun _ => ([] : Rec)) [] [] []
    wC10Site).1 wC10Rec rfl
  exact ⟨h.1, h.2 "color" (by decide)⟩

end IndieMap
